import Mathlib

/-!
Verification development for the VortexCut rust engine core.

The Rust sources are shallowly embedded: machine integers (`i64`, `usize`,
`u8`) become `ℤ` / `ℕ` with the casts made explicit, `f64`/`f32` values
become `ℚ` with the float-to-integer casts modelled as truncation toward
zero (saturating where Rust saturates), fallible code returns `Except`,
and stateful components are modelled by explicit state passing.  External
library behaviour (the decoding library, the filesystem, the audio device)
is passed in as environment parameters.
-/

set_option maxRecDepth 8000

namespace VortexCut

/-- Truncation toward zero of a rational, mirroring a Rust `as i64` cast of
an `f64` value (for the nonnegative values arising here this agrees with
the floor). -/
def ratTrunc (q : ℚ) : ℤ :=
  if 0 ≤ q then ⌊q⌋ else -⌊-q⌋

/-- A Rust `as usize` cast of an `f64` value: truncation toward zero,
saturating at zero for negative inputs. -/
def ratToUsize (q : ℚ) : ℕ :=
  (ratTrunc q).toNat

/-- A Rust `as u8` cast of an `f32` value: truncation toward zero,
saturating at 0 and 255. -/
def ratToU8 (q : ℚ) : ℕ :=
  min 255 (ratTrunc q).toNat

theorem ratTrunc_of_nonneg (q : ℚ) (h : 0 ≤ q) : ratTrunc q = ⌊q⌋ := by
  simp [ratTrunc, h]

theorem ratTrunc_intCast (n : ℤ) : ratTrunc (n : ℚ) = n := by
  unfold ratTrunc
  split
  · exact Int.floor_intCast n
  · rw [← Int.cast_neg, Int.floor_intCast]
    omega

/-! ## AudioRingBuffer (src/rust-engine/src/audio/playback.rs)

`AudioRingBuffer` stores interleaved `f32` samples in a `VecDeque` with a
nominal capacity of one second of 48 kHz stereo audio.  The sample values
are modelled as `ℚ` and the deque as a list whose head is the oldest
sample. -/

/-- `BUFFER_CAPACITY`: one second of 48 kHz stereo, 96 000 samples. -/
def BUFFER_CAPACITY : ℕ := 48000 * 2

/-- `AudioRingBuffer::push`: if the incoming slice exceeds the available
space, first drain `min(discard, len)` oldest samples, then append the
whole slice.  (`available` uses saturating subtraction like the source.) -/
def ringPush (samples : List ℚ) (data : List ℚ) : List ℚ :=
  let available := BUFFER_CAPACITY - samples.length
  if available < data.length then
    let discard := data.length - available
    samples.drop (min discard samples.length) ++ data
  else
    samples ++ data

/-- Pushing a sequence of sample slices, oldest first, onto an initially
empty ring buffer. -/
def ringPushAll (chunks : List (List ℚ)) : List ℚ :=
  List.foldl ringPush [] chunks

/-- One `push` of a slice no longer than the capacity, applied to a buffer
no longer than the capacity, keeps exactly the trailing `BUFFER_CAPACITY`
samples of the concatenation. -/
theorem ringPush_eq_drop (samples data : List ℚ)
    (hs : samples.length ≤ BUFFER_CAPACITY) (hd : data.length ≤ BUFFER_CAPACITY) :
    ringPush samples data =
      (samples ++ data).drop (samples.length + data.length - BUFFER_CAPACITY) := by
  unfold ringPush
  by_cases h : BUFFER_CAPACITY - samples.length < data.length
  · simp only [h, if_pos]
    have hmin : min (data.length - (BUFFER_CAPACITY - samples.length)) samples.length
        = samples.length + data.length - BUFFER_CAPACITY := by omega
    have hle : samples.length + data.length - BUFFER_CAPACITY ≤ samples.length := by omega
    rw [hmin, List.drop_append_eq_append_drop]
    have : samples.length + data.length - BUFFER_CAPACITY - samples.length = 0 := by omega
    simp [this]
  · simp only [h, if_neg, if_false]
    have : samples.length + data.length - BUFFER_CAPACITY = 0 := by omega
    simp [this]

theorem ringPush_drop_eq (J data : List ℚ) (hd : data.length ≤ BUFFER_CAPACITY) :
    ringPush (J.drop (J.length - BUFFER_CAPACITY)) data =
      (J ++ data).drop ((J ++ data).length - BUFFER_CAPACITY) := by
  have hslen : (J.drop (J.length - BUFFER_CAPACITY)).length ≤ BUFFER_CAPACITY := by
    simp only [List.length_drop]; omega
  rw [ringPush_eq_drop _ _ hslen hd]
  rw [List.drop_append_eq_append_drop, List.drop_append_eq_append_drop, List.drop_drop]
  rw [List.length_append]
  simp only [List.length_drop]
  have e1 : J.length - BUFFER_CAPACITY
        + (J.length - (J.length - BUFFER_CAPACITY) + data.length - BUFFER_CAPACITY)
      = J.length + data.length - BUFFER_CAPACITY := by omega
  have e2 : J.length - (J.length - BUFFER_CAPACITY) + data.length - BUFFER_CAPACITY
        - (J.length - (J.length - BUFFER_CAPACITY))
      = J.length + data.length - BUFFER_CAPACITY - J.length := by omega
  rw [e1, e2]

theorem ringPushAll_go (chunks : List (List ℚ)) (J : List ℚ)
    (h : ∀ c ∈ chunks, c.length ≤ BUFFER_CAPACITY) :
    List.foldl ringPush (J.drop (J.length - BUFFER_CAPACITY)) chunks =
      (J ++ chunks.flatten).drop ((J ++ chunks.flatten).length - BUFFER_CAPACITY) := by
  induction chunks generalizing J with
  | nil => rw [List.foldl_nil, List.flatten_nil, List.append_nil]
  | cons c cs ih =>
    have hc : c.length ≤ BUFFER_CAPACITY := h c (List.mem_cons_self c cs)
    have hcs : ∀ x ∈ cs, x.length ≤ BUFFER_CAPACITY := fun x hx =>
      h x (List.mem_cons_of_mem c hx)
    rw [List.foldl_cons]
    rw [ringPush_drop_eq J c hc]
    rw [List.flatten_cons, ← List.append_assoc]
    exact ih (J ++ c) hcs

/-- C5 (counterexample): a single `push` whose slice is longer than the
capacity leaves the whole slice stored — 96 001 samples, not
`BUFFER_CAPACITY` — because the source drains at most `samples.len()`
old samples and never truncates the incoming slice. -/
theorem C5_counterexample :
    (ringPush [] (List.replicate 96001 (0 : ℚ))).length = 96001 ∧
      (96001 : ℕ) ≠ BUFFER_CAPACITY := by
  constructor
  · have hcond : BUFFER_CAPACITY - ([] : List ℚ).length
        < (List.replicate 96001 (0 : ℚ)).length := by
      rw [List.length_nil, Nat.sub_zero, List.length_replicate]
      norm_num [BUFFER_CAPACITY]
    simp only [ringPush]
    rw [if_pos hcond]
    rw [List.drop_nil, List.nil_append, List.length_replicate]
  · norm_num [BUFFER_CAPACITY]

/-- C5 (amended): for any sequence of `push` calls in which every single
slice is at most the capacity, the buffer holds exactly the trailing
`BUFFER_CAPACITY` samples of everything pushed (all of them when fewer
were pushed); in particular after pushing more than `BUFFER_CAPACITY`
samples in total, exactly `BUFFER_CAPACITY` samples are stored and they
are the last `BUFFER_CAPACITY` pushed. -/
theorem C5_ring_last_capacity (chunks : List (List ℚ))
    (h : ∀ c ∈ chunks, c.length ≤ BUFFER_CAPACITY) :
    ringPushAll chunks =
      chunks.flatten.drop (chunks.flatten.length - BUFFER_CAPACITY) ∧
    (BUFFER_CAPACITY < chunks.flatten.length →
      (ringPushAll chunks).length = BUFFER_CAPACITY) := by
  have base := ringPushAll_go chunks [] h
  rw [List.drop_nil, List.nil_append] at base
  have h1 : ringPushAll chunks =
      chunks.flatten.drop (chunks.flatten.length - BUFFER_CAPACITY) := base
  refine ⟨h1, fun hlt => ?_⟩
  rw [h1, List.length_drop]
  omega

/-- C5 witness: two small pushes stay below the capacity, so everything
pushed is retained in order. -/
theorem C5_witness : ringPushAll [[(1 : ℚ)], [2]] = [1, 2] := by
  have h := (C5_ring_last_capacity [[(1 : ℚ)], [2]] (by decide)).1
  rw [h]
  rw [List.flatten_cons, List.flatten_cons, List.flatten_nil, List.append_nil]
  norm_num [BUFFER_CAPACITY]

/-! ## Transitions (src/rust-engine/src/rendering/transitions.rs)

RGBA byte buffers are modelled as `List ℕ` (head = byte 0); the `f32`
blending arithmetic is modelled over `ℚ` with the `as u8` cast as
`ratToU8`.  The transition tag enumeration itself lives in the timeline
clip module, which is not among the provided sources; it is modelled from
the spec's tag list. -/

/-- Modelled from the spec: the transition tag
`{none, crossfade, fade_black, wipe_left, wipe_right, wipe_up, wipe_down}`
(`timeline/clip.rs` is not among the provided sources). -/
inductive TransitionType
  | none
  | crossfade
  | fade_black
  | wipe_left
  | wipe_right
  | wipe_up
  | wipe_down
  deriving DecidableEq, Repr

/-- One colour channel of the crossfade:
`(a as f32 * inv_p + b as f32 * p) as u8`. -/
def crossChan (p : ℚ) (a b : ℕ) : ℕ :=
  ratToU8 ((a : ℚ) * (1 - p) + (b : ℚ) * p)

/-- The pixel loop of `blend_crossfade`: `i` is the pixel index, the
second argument counts the remaining pixels, and the buffer is updated in
place via `List.set`; the loop breaks when either buffer is too short. -/
def crossfadeGo (incoming : List ℕ) (p : ℚ) : ℕ → ℕ → List ℕ → List ℕ
  | _, 0, outgoing => outgoing
  | i, Nat.succ n, outgoing =>
    let idx := i * 4
    if outgoing.length ≤ idx + 3 ∨ incoming.length ≤ idx + 3 then outgoing
    else
      let out2 :=
        ((((outgoing.set idx (crossChan p (outgoing.getD idx 0) (incoming.getD idx 0))).set
            (idx + 1) (crossChan p (outgoing.getD (idx + 1) 0) (incoming.getD (idx + 1) 0))).set
            (idx + 2) (crossChan p (outgoing.getD (idx + 2) 0) (incoming.getD (idx + 2) 0))).set
            (idx + 3) 255)
      crossfadeGo incoming p (i + 1) n out2

/-- `blend_crossfade`: `pixel = A*(1-p) + B*p`, alpha forced to 255. -/
def blend_crossfade (outgoing incoming : List ℕ) (width height : ℕ) (p : ℚ) : List ℕ :=
  crossfadeGo incoming p 0 (width * height) outgoing

/-- One channel of the fade-through-black attenuation:
`(v as f32 * alpha) as u8`. -/
def fadeChan (alpha : ℚ) (v : ℕ) : ℕ :=
  ratToU8 ((v : ℚ) * alpha)

/-- First loop of `blend_fade_black` (`p ≤ 0.5`): attenuate the outgoing
frame in place. -/
def fadeOutGo (alpha : ℚ) : ℕ → ℕ → List ℕ → List ℕ
  | _, 0, outgoing => outgoing
  | i, Nat.succ n, outgoing =>
    let idx := i * 4
    if outgoing.length ≤ idx + 3 then outgoing
    else
      let out2 :=
        ((((outgoing.set idx (fadeChan alpha (outgoing.getD idx 0))).set
            (idx + 1) (fadeChan alpha (outgoing.getD (idx + 1) 0))).set
            (idx + 2) (fadeChan alpha (outgoing.getD (idx + 2) 0))).set
            (idx + 3) 255)
      fadeOutGo alpha (i + 1) n out2

/-- Second loop of `blend_fade_black` (`p > 0.5`): write the attenuated
incoming frame. -/
def fadeInGo (incoming : List ℕ) (alpha : ℚ) : ℕ → ℕ → List ℕ → List ℕ
  | _, 0, outgoing => outgoing
  | i, Nat.succ n, outgoing =>
    let idx := i * 4
    if outgoing.length ≤ idx + 3 ∨ incoming.length ≤ idx + 3 then outgoing
    else
      let out2 :=
        ((((outgoing.set idx (fadeChan alpha (incoming.getD idx 0))).set
            (idx + 1) (fadeChan alpha (incoming.getD (idx + 1) 0))).set
            (idx + 2) (fadeChan alpha (incoming.getD (idx + 2) 0))).set
            (idx + 3) 255)
      fadeInGo incoming alpha (i + 1) n out2

/-- `blend_fade_black`: attenuate outgoing for `p ≤ 0.5`, incoming
otherwise. -/
def blend_fade_black (outgoing incoming : List ℕ) (width height : ℕ) (progress : ℚ) : List ℕ :=
  if progress ≤ 1 / 2 then
    fadeOutGo (1 - progress * 2) 0 (width * height) outgoing
  else
    fadeInGo incoming ((progress - 1 / 2) * 2) 0 (width * height) outgoing

/-- One cell of the horizontal wipe: copy the incoming pixel when the
column is on the incoming side of the boundary (skipping, not breaking,
when out of bounds). -/
def wipeHCell (incoming : List ℕ) (w boundary : ℕ) (reverse : Bool) (row col : ℕ)
    (outgoing : List ℕ) : List ℕ :=
  let use_incoming := if reverse then w - boundary ≤ col else col < boundary
  if use_incoming then
    let idx := (row * w + col) * 4
    if outgoing.length ≤ idx + 3 ∨ incoming.length ≤ idx + 3 then outgoing
    else
      ((((outgoing.set idx (incoming.getD idx 0)).set
          (idx + 1) (incoming.getD (idx + 1) 0)).set
          (idx + 2) (incoming.getD (idx + 2) 0)).set
          (idx + 3) 255)
  else outgoing

/-- Column loop of the horizontal wipe. -/
def wipeHCols (incoming : List ℕ) (w boundary : ℕ) (reverse : Bool) (row : ℕ) :
    ℕ → ℕ → List ℕ → List ℕ
  | _, 0, outgoing => outgoing
  | col, Nat.succ n, outgoing =>
    wipeHCols incoming w boundary reverse row (col + 1) n
      (wipeHCell incoming w boundary reverse row col outgoing)

/-- Row loop of the horizontal wipe. -/
def wipeHRows (incoming : List ℕ) (w boundary : ℕ) (reverse : Bool) :
    ℕ → ℕ → List ℕ → List ℕ
  | _, 0, outgoing => outgoing
  | row, Nat.succ n, outgoing =>
    wipeHRows incoming w boundary reverse (row + 1) n
      (wipeHCols incoming w boundary reverse row 0 w outgoing)

/-- `blend_wipe_horizontal`: the boundary column is `(w as f64 * progress)
as usize`; `reverse` selects wipe-from-the-right. -/
def blend_wipe_horizontal (outgoing incoming : List ℕ) (width height : ℕ) (progress : ℚ)
    (reverse : Bool) : List ℕ :=
  let boundary := ratToUsize ((width : ℚ) * progress)
  wipeHRows incoming width boundary reverse 0 height outgoing

/-- One row of the vertical wipe: whole-row `copy_from_slice` from the
incoming buffer when in bounds. -/
def wipeVRow (incoming : List ℕ) (w row : ℕ) (outgoing : List ℕ) : List ℕ :=
  let row_start := row * w * 4
  let row_end := row_start + w * 4
  if row_end ≤ outgoing.length ∧ row_end ≤ incoming.length then
    outgoing.take row_start ++ ((incoming.drop row_start).take (w * 4))
      ++ outgoing.drop row_end
  else outgoing

/-- Row loop of the vertical wipe. -/
def wipeVRows (incoming : List ℕ) (w h boundary : ℕ) (reverse : Bool) :
    ℕ → ℕ → List ℕ → List ℕ
  | _, 0, outgoing => outgoing
  | row, Nat.succ n, outgoing =>
    let use_incoming := if reverse then h - boundary ≤ row else row < boundary
    wipeVRows incoming w h boundary reverse (row + 1) n
      (if use_incoming then wipeVRow incoming w row outgoing else outgoing)

/-- `blend_wipe_vertical`. -/
def blend_wipe_vertical (outgoing incoming : List ℕ) (width height : ℕ) (progress : ℚ)
    (reverse : Bool) : List ℕ :=
  let boundary := ratToUsize ((height : ℚ) * progress)
  wipeVRows incoming width height boundary reverse 0 height outgoing

/-- `apply_transition`: the dispatcher; `None` and `Crossfade` share the
crossfade blend. -/
def apply_transition (outgoing incoming : List ℕ) (width height : ℕ) (progress : ℚ) :
    TransitionType → List ℕ
  | .none => blend_crossfade outgoing incoming width height progress
  | .crossfade => blend_crossfade outgoing incoming width height progress
  | .fade_black => blend_fade_black outgoing incoming width height progress
  | .wipe_left => blend_wipe_horizontal outgoing incoming width height progress false
  | .wipe_right => blend_wipe_horizontal outgoing incoming width height progress true
  | .wipe_up => blend_wipe_vertical outgoing incoming width height progress false
  | .wipe_down => blend_wipe_vertical outgoing incoming width height progress true

theorem getD_set_ne (l : List ℕ) (i j a : ℕ) (h : i ≠ j) :
    (l.set i a).getD j 0 = l.getD j 0 := by
  rw [List.getD_eq_getElem?_getD, List.getD_eq_getElem?_getD, List.getElem?_set_ne h]

theorem getD_set_self (l : List ℕ) (i a : ℕ) (h : i < l.length) :
    (l.set i a).getD i 0 = a := by
  rw [List.getD_eq_getElem?_getD, List.getElem?_set_self h]
  rfl

/-- The value `blend_crossfade` writes at byte position `m`. -/
def crossfadeSpec (outgoing incoming : List ℕ) (p : ℚ) (m : ℕ) : ℕ :=
  if m % 4 = 3 then 255 else crossChan p (outgoing.getD m 0) (incoming.getD m 0)

theorem crossfadeGo_getD (incoming : List ℕ) (p : ℚ) (n : ℕ) :
    ∀ (i : ℕ) (outgoing : List ℕ),
      (i + n) * 4 ≤ outgoing.length → (i + n) * 4 ≤ incoming.length →
      ∀ m : ℕ,
        (crossfadeGo incoming p i n outgoing).getD m 0 =
          if i * 4 ≤ m ∧ m < (i + n) * 4 then crossfadeSpec outgoing incoming p m
          else outgoing.getD m 0 := by
  induction n with
  | zero =>
    intro i outgoing _ _ m
    simp only [crossfadeGo]
    rw [if_neg]
    omega
  | succ n ih =>
    intro i outgoing hlo hli m
    have hguard : ¬(outgoing.length ≤ i * 4 + 3 ∨ incoming.length ≤ i * 4 + 3) := by
      push_neg
      omega
    simp only [crossfadeGo]
    rw [if_neg hguard]
    have hsetlen :
        (((((outgoing.set (i * 4)
              (crossChan p (outgoing.getD (i * 4) 0) (incoming.getD (i * 4) 0))).set
            (i * 4 + 1)
              (crossChan p (outgoing.getD (i * 4 + 1) 0) (incoming.getD (i * 4 + 1) 0))).set
            (i * 4 + 2)
              (crossChan p (outgoing.getD (i * 4 + 2) 0) (incoming.getD (i * 4 + 2) 0))).set
            (i * 4 + 3) 255)).length = outgoing.length := by
      simp [List.length_set]
    rw [ih (i + 1) _ (by rw [hsetlen]; omega) (by omega) m]
    by_cases hA : (i + 1) * 4 ≤ m ∧ m < (i + 1 + n) * 4
    · rw [if_pos hA, if_pos (show i * 4 ≤ m ∧ m < (i + (n + 1)) * 4 by omega)]
      have hout :
          (((((outgoing.set (i * 4)
                (crossChan p (outgoing.getD (i * 4) 0) (incoming.getD (i * 4) 0))).set
              (i * 4 + 1)
                (crossChan p (outgoing.getD (i * 4 + 1) 0) (incoming.getD (i * 4 + 1) 0))).set
              (i * 4 + 2)
                (crossChan p (outgoing.getD (i * 4 + 2) 0) (incoming.getD (i * 4 + 2) 0))).set
              (i * 4 + 3) 255)).getD m 0 = outgoing.getD m 0 := by
        rw [getD_set_ne _ _ _ _ (by omega), getD_set_ne _ _ _ _ (by omega),
          getD_set_ne _ _ _ _ (by omega), getD_set_ne _ _ _ _ (by omega)]
      unfold crossfadeSpec
      rw [hout]
    · rw [if_neg hA]
      by_cases hB : i * 4 ≤ m ∧ m < i * 4 + 4
      · rw [if_pos (show i * 4 ≤ m ∧ m < (i + (n + 1)) * 4 by omega)]
        have hc : m = i * 4 ∨ m = i * 4 + 1 ∨ m = i * 4 + 2 ∨ m = i * 4 + 3 := by omega
        unfold crossfadeSpec
        rcases hc with hc | hc | hc | hc <;> subst hc
        · rw [getD_set_ne _ _ _ _ (by omega), getD_set_ne _ _ _ _ (by omega),
            getD_set_ne _ _ _ _ (by omega), getD_set_self _ _ _ (by omega)]
          rw [if_neg (by omega)]
        · rw [getD_set_ne _ _ _ _ (by omega), getD_set_ne _ _ _ _ (by omega),
            getD_set_self _ _ _ (by simp [List.length_set]; omega)]
          rw [if_neg (by omega)]
        · rw [getD_set_ne _ _ _ _ (by omega),
            getD_set_self _ _ _ (by simp [List.length_set]; omega)]
          rw [if_neg (by omega)]
        · rw [getD_set_self _ _ _ (by simp [List.length_set]; omega)]
          rw [if_pos (by omega)]
      · rw [if_neg (show ¬(i * 4 ≤ m ∧ m < (i + (n + 1)) * 4) by omega)]
        rw [getD_set_ne _ _ _ _ (by omega), getD_set_ne _ _ _ _ (by omega),
          getD_set_ne _ _ _ _ (by omega), getD_set_ne _ _ _ _ (by omega)]

theorem ratToU8_eq_trunc (q : ℚ) (h0 : 0 ≤ q) (h255 : q ≤ 255) :
    (ratToU8 q : ℤ) = ratTrunc q := by
  unfold ratToU8
  rw [ratTrunc_of_nonneg q h0]
  have hfl0 : 0 ≤ ⌊q⌋ := Int.floor_nonneg.mpr h0
  have hfl255 : ⌊q⌋ ≤ 255 := by
    have h := Int.floor_le_floor h255
    simpa using h
  have hmin : min 255 (⌊q⌋).toNat = (⌊q⌋).toNat := by omega
  rw [hmin]
  omega

theorem getD_le_of_all (l : List ℕ) (m : ℕ) (h : ∀ b ∈ l, b ≤ 255) :
    l.getD m 0 ≤ 255 := by
  by_cases hm : m < l.length
  · rw [List.getD_eq_getElem l 0 hm]
    exact h _ (List.getElem_mem hm)
  · rw [List.getD_eq_default l 0 (by omega)]
    omega

/-- C7 (confirmed): with the `crossfade` (and `none`) tag, every output
pixel's R, G and B channels equal the truncation of
`outgoing·(1−p) + incoming·p` and the alpha byte is forced to 255. -/
theorem C7_crossfade_blend (outgoing incoming : List ℕ) (width height : ℕ) (p : ℚ)
    (hlo : outgoing.length = width * height * 4)
    (hli : incoming.length = width * height * 4)
    (hp0 : 0 ≤ p) (hp1 : p ≤ 1)
    (hbo : ∀ b ∈ outgoing, b ≤ 255) (hbi : ∀ b ∈ incoming, b ≤ 255) :
    (apply_transition outgoing incoming width height p TransitionType.none =
        blend_crossfade outgoing incoming width height p ∧
      apply_transition outgoing incoming width height p TransitionType.crossfade =
        blend_crossfade outgoing incoming width height p) ∧
    ∀ i < width * height,
      (∀ c < 3,
        ((blend_crossfade outgoing incoming width height p).getD (i * 4 + c) 0 : ℤ) =
          ratTrunc ((outgoing.getD (i * 4 + c) 0 : ℚ) * (1 - p)
            + (incoming.getD (i * 4 + c) 0 : ℚ) * p)) ∧
      (blend_crossfade outgoing incoming width height p).getD (i * 4 + 3) 0 = 255 := by
  refine ⟨⟨rfl, rfl⟩, ?_⟩
  intro i hi
  have key := crossfadeGo_getD incoming p (width * height) 0 outgoing (by omega) (by omega)
  constructor
  · intro c hc
    have h := key (i * 4 + c)
    rw [if_pos (by omega)] at h
    unfold blend_crossfade
    rw [h]
    unfold crossfadeSpec
    rw [if_neg (by omega)]
    unfold crossChan
    have ho := getD_le_of_all outgoing (i * 4 + c) hbo
    have hin := getD_le_of_all incoming (i * 4 + c) hbi
    have hoQ : ((outgoing.getD (i * 4 + c) 0 : ℕ) : ℚ) ≤ 255 := by exact_mod_cast ho
    have hinQ : ((incoming.getD (i * 4 + c) 0 : ℕ) : ℚ) ≤ 255 := by exact_mod_cast hin
    have hoQ0 : (0 : ℚ) ≤ ((outgoing.getD (i * 4 + c) 0 : ℕ) : ℚ) := Nat.cast_nonneg _
    have hinQ0 : (0 : ℚ) ≤ ((incoming.getD (i * 4 + c) 0 : ℕ) : ℚ) := Nat.cast_nonneg _
    apply ratToU8_eq_trunc
    · have t1 := mul_nonneg hoQ0 (by linarith : (0 : ℚ) ≤ 1 - p)
      have t2 := mul_nonneg hinQ0 hp0
      linarith
    · have t1 := mul_le_mul_of_nonneg_right hoQ (by linarith : (0 : ℚ) ≤ 1 - p)
      have t2 := mul_le_mul_of_nonneg_right hinQ hp0
      linarith
  · have h := key (i * 4 + 3)
    rw [if_pos (by omega)] at h
    unfold blend_crossfade
    rw [h]
    unfold crossfadeSpec
    rw [if_pos (by omega)]

/-- C7 witness: a 1×1 frame at `p = 0.5` — each channel becomes
`0.5·100 + 0.5·200 = 150`, alpha 255. -/
theorem C7_witness :
    ((blend_crossfade [100, 100, 100, 0] [200, 200, 200, 7] 1 1 (1 / 2 : ℚ)).getD 0 0 : ℤ)
        = ratTrunc (((100 : ℕ) : ℚ) * (1 - 1 / 2) + ((200 : ℕ) : ℚ) * (1 / 2)) ∧
      (blend_crossfade [100, 100, 100, 0] [200, 200, 200, 7] 1 1 (1 / 2 : ℚ)).getD 3 0
        = 255 := by
  have h := C7_crossfade_blend [100, 100, 100, 0] [200, 200, 200, 7] 1 1 (1 / 2)
    (by decide) (by decide) (by norm_num) (by norm_num) (by decide) (by decide)
  exact ⟨(h.2 0 (by norm_num)).1 0 (by norm_num), (h.2 0 (by norm_num)).2⟩

/-! ## FrameCache (src/rust-engine/src/rendering/renderer.rs)

The LRU cache keeps its entries in a `VecDeque` whose front is the least
recently used entry; it is modelled as a list with the same orientation. -/

/-- `RenderedFrame`: the renderer's output frame. -/
structure RenderedFrame where
  width : ℕ
  height : ℕ
  data : List ℕ
  timestamp_ms : ℤ
  is_yuv : Bool
  deriving DecidableEq, Repr

/-- `CacheEntry`: key (decode path, source timestamp) plus the frame. -/
structure CacheEntry where
  file_path : String
  source_time_ms : ℤ
  frame : RenderedFrame
  deriving DecidableEq, Repr

/-- `FrameCache`: bounded LRU with an entry cap and a byte cap. -/
structure FrameCache where
  entries : List CacheEntry
  max_entries : ℕ
  max_bytes : ℕ
  current_bytes : ℕ
  hit_count : ℕ
  miss_count : ℕ
  deriving DecidableEq, Repr

/-- `FrameCache::new`. -/
def FrameCache.new (max_entries max_bytes : ℕ) : FrameCache :=
  ⟨[], max_entries, max_bytes, 0, 0, 0⟩

/-- `iter().position(..)` followed by `remove(i)`: find the first entry
with the given key and return it together with the remaining entries in
their original order. -/
def cacheFind : List CacheEntry → String → ℤ → Option (CacheEntry × List CacheEntry)
  | [], _, _ => Option.none
  | e :: rest, fp, ms =>
    if e.file_path = fp ∧ e.source_time_ms = ms then some (e, rest)
    else
      match cacheFind rest fp ms with
      | some (x, rest2) => some (x, e :: rest2)
      | none => none

/-- `FrameCache::get`: on a hit, move the entry to the most-recently-used
end and return its frame; on a miss count it and return nothing.  (The
source skips the remove/push-back when the hit already is the last entry;
removing the last element and pushing it back is the identity, so both
branches produce the entry order modelled here.) -/
def FrameCache.get (c : FrameCache) (fp : String) (ms : ℤ) :
    Option RenderedFrame × FrameCache :=
  match cacheFind c.entries fp ms with
  | some (x, rest) =>
    (some x.frame, { c with entries := rest ++ [x], hit_count := c.hit_count + 1 })
  | none => (none, { c with miss_count := c.miss_count + 1 })

/-- The `while` eviction loop of `FrameCache::put`: evict from the oldest
end while the cache is at the entry cap or the new frame would exceed the
byte cap, stopping when the cache is empty. -/
def evictLoop (max_entries max_bytes frame_bytes : ℕ) :
    List CacheEntry → ℕ → List CacheEntry × ℕ
  | [], bytes => ([], bytes)
  | e :: rest, bytes =>
    if max_entries ≤ (e :: rest).length ∨ max_bytes < bytes + frame_bytes then
      evictLoop max_entries max_bytes frame_bytes rest (bytes - e.frame.data.length)
    else (e :: rest, bytes)

/-- The update-in-place step of `FrameCache::put`: if the key already
exists remove its entry and subtract its size from the byte counter. -/
def putRemoved (c : FrameCache) (fp : String) (ms : ℤ) : List CacheEntry × ℕ :=
  match cacheFind c.entries fp ms with
  | some (old, rest) => (rest, c.current_bytes - old.frame.data.length)
  | none => (c.entries, c.current_bytes)

/-- `FrameCache::put`: update in place if the key exists, evict until both
caps admit the new entry, then push it at the most-recently-used end. -/
def FrameCache.put (c : FrameCache) (fp : String) (ms : ℤ) (frame : RenderedFrame) :
    FrameCache :=
  { c with
    entries :=
      (evictLoop c.max_entries c.max_bytes frame.data.length
        (putRemoved c fp ms).1 (putRemoved c fp ms).2).1 ++ [⟨fp, ms, frame⟩],
    current_bytes :=
      (evictLoop c.max_entries c.max_bytes frame.data.length
        (putRemoved c fp ms).1 (putRemoved c fp ms).2).2 + frame.data.length }

theorem put_entries (c : FrameCache) (fp : String) (ms : ℤ) (frame : RenderedFrame) :
    (c.put fp ms frame).entries =
      (evictLoop c.max_entries c.max_bytes frame.data.length
        (putRemoved c fp ms).1 (putRemoved c fp ms).2).1 ++ [⟨fp, ms, frame⟩] := rfl

theorem put_current_bytes (c : FrameCache) (fp : String) (ms : ℤ) (frame : RenderedFrame) :
    (c.put fp ms frame).current_bytes =
      (evictLoop c.max_entries c.max_bytes frame.data.length
        (putRemoved c fp ms).1 (putRemoved c fp ms).2).2 + frame.data.length := rfl

/-- `FrameCache::clear`. -/
def FrameCache.clear (c : FrameCache) : FrameCache :=
  { c with entries := [], current_bytes := 0 }

/-- `FrameCache::stats`. -/
def FrameCache.stats (c : FrameCache) : ℕ × ℕ :=
  (c.entries.length, c.current_bytes)

/-- Total byte size of a list of cache entries. -/
def cacheSizes (l : List CacheEntry) : ℕ :=
  (l.map (fun e => e.frame.data.length)).sum

/-- Inserting a sequence of (path, timestamp, frame) requests in order. -/
def putAll (c : FrameCache) (rs : List (String × ℤ × RenderedFrame)) : FrameCache :=
  rs.foldl (fun acc r => acc.put r.1 r.2.1 r.2.2) c

/-- The cache entry a put request creates. -/
def toEntry (r : String × ℤ × RenderedFrame) : CacheEntry :=
  ⟨r.1, r.2.1, r.2.2⟩

/-- The key of a put request. -/
def reqKey (r : String × ℤ × RenderedFrame) : String × ℤ :=
  (r.1, r.2.1)

/-- Total byte size of a list of put requests. -/
def reqSizes (rs : List (String × ℤ × RenderedFrame)) : ℕ :=
  (rs.map (fun r => r.2.2.data.length)).sum

theorem cacheFind_spec (fp : String) (ms : ℤ) :
    ∀ (l : List CacheEntry) (x : CacheEntry) (rest : List CacheEntry),
      cacheFind l fp ms = some (x, rest) →
      ∃ l1 l2, l = l1 ++ x :: l2 ∧ rest = l1 ++ l2 ∧
        x.file_path = fp ∧ x.source_time_ms = ms := by
  intro l
  induction l with
  | nil => intro x rest h; simp [cacheFind] at h
  | cons e tail ih =>
    intro x rest h
    unfold cacheFind at h
    by_cases he : e.file_path = fp ∧ e.source_time_ms = ms
    · rw [if_pos he] at h
      have h2 : (e, tail) = (x, rest) := Option.some.inj h
      have hx : e = x := congrArg Prod.fst h2
      have ht : tail = rest := congrArg Prod.snd h2
      subst hx
      subst ht
      exact ⟨[], tail, by simp, by simp, he.1, he.2⟩
    · rw [if_neg he] at h
      cases hrec : cacheFind tail fp ms with
      | none => rw [hrec] at h; exact absurd h (by simp)
      | some pr =>
        obtain ⟨x2, rest2⟩ := pr
        rw [hrec] at h
        have h2 : (x2, e :: rest2) = (x, rest) := Option.some.inj h
        have hx : x2 = x := congrArg Prod.fst h2
        have hrest : e :: rest2 = rest := congrArg Prod.snd h2
        subst hx
        obtain ⟨l1, l2, hl, hr, hfp, hms⟩ := ih x2 rest2 hrec
        refine ⟨e :: l1, l2, ?_, ?_, hfp, hms⟩
        · rw [hl]
          simp
        · rw [← hrest, hr]
          simp

theorem cacheFind_none_of_fresh (fp : String) (ms : ℤ) :
    ∀ l : List CacheEntry,
      (∀ e ∈ l, ¬(e.file_path = fp ∧ e.source_time_ms = ms)) →
      cacheFind l fp ms = Option.none := by
  intro l
  induction l with
  | nil => intro _; rfl
  | cons e tail ih =>
    intro h
    unfold cacheFind
    rw [if_neg (h e (List.mem_cons_self e tail))]
    rw [ih fun x hx => h x (List.mem_cons_of_mem e hx)]

theorem evictLoop_drop (maxE maxB fb : ℕ) :
    ∀ (l : List CacheEntry) (bytes : ℕ),
      ∃ k, (evictLoop maxE maxB fb l bytes).1 = l.drop k := by
  intro l
  induction l with
  | nil => intro bytes; exact ⟨0, rfl⟩
  | cons e rest ih =>
    intro bytes
    unfold evictLoop
    by_cases hcond : maxE ≤ (e :: rest).length ∨ maxB < bytes + fb
    · rw [if_pos hcond]
      obtain ⟨k, hk⟩ := ih (bytes - e.frame.data.length)
      exact ⟨k + 1, by simpa using hk⟩
    · rw [if_neg hcond]
      exact ⟨0, rfl⟩

theorem evictLoop_exit (maxE maxB fb : ℕ) :
    ∀ (l : List CacheEntry) (bytes : ℕ),
      (evictLoop maxE maxB fb l bytes).1 = [] ∨
        ((evictLoop maxE maxB fb l bytes).1.length < maxE ∧
          (evictLoop maxE maxB fb l bytes).2 + fb ≤ maxB) := by
  intro l
  induction l with
  | nil => intro bytes; exact Or.inl rfl
  | cons e rest ih =>
    intro bytes
    unfold evictLoop
    by_cases hcond : maxE ≤ (e :: rest).length ∨ maxB < bytes + fb
    · rw [if_pos hcond]
      exact ih _
    · rw [if_neg hcond]
      push_neg at hcond
      exact Or.inr ⟨hcond.1, hcond.2⟩

theorem evictLoop_bytes (maxE maxB fb : ℕ) :
    ∀ (l : List CacheEntry) (bytes : ℕ), bytes = cacheSizes l →
      (evictLoop maxE maxB fb l bytes).2 =
        cacheSizes (evictLoop maxE maxB fb l bytes).1 := by
  intro l
  induction l with
  | nil => intro bytes h; simpa [evictLoop] using h
  | cons e rest ih =>
    intro bytes h
    unfold evictLoop
    by_cases hcond : maxE ≤ (e :: rest).length ∨ maxB < bytes + fb
    · rw [if_pos hcond]
      apply ih
      rw [h]
      simp [cacheSizes]
    · rw [if_neg hcond]
      exact h

theorem evictLoop_no_evict (maxE maxB fb : ℕ) (l : List CacheEntry) (bytes : ℕ)
    (h1 : l.length < maxE) (h2 : bytes + fb ≤ maxB) :
    evictLoop maxE maxB fb l bytes = (l, bytes) := by
  cases l with
  | nil => rfl
  | cons e rest =>
    unfold evictLoop
    rw [if_neg]
    push_neg
    exact ⟨by omega, by omega⟩

theorem evictLoop_pop_one (maxE maxB fb : ℕ) (e : CacheEntry) (rest : List CacheEntry)
    (bytes : ℕ)
    (htrig : maxE ≤ (e :: rest).length ∨ maxB < bytes + fb)
    (h1 : rest.length < maxE) (h2 : bytes - e.frame.data.length + fb ≤ maxB) :
    evictLoop maxE maxB fb (e :: rest) bytes = (rest, bytes - e.frame.data.length) := by
  unfold evictLoop
  rw [if_pos htrig]
  exact evictLoop_no_evict maxE maxB fb rest _ h1 h2

theorem cacheSizes_append (a b : List CacheEntry) :
    cacheSizes (a ++ b) = cacheSizes a + cacheSizes b := by
  simp [cacheSizes]

theorem cacheSizes_cons (e : CacheEntry) (l : List CacheEntry) :
    cacheSizes (e :: l) = e.frame.data.length + cacheSizes l := by
  simp [cacheSizes]

theorem evictLoop_all (maxE maxB fb : ℕ) (hfb : maxB < fb) :
    ∀ (l : List CacheEntry) (bytes : ℕ), bytes = cacheSizes l →
      evictLoop maxE maxB fb l bytes = ([], 0) := by
  intro l
  induction l with
  | nil =>
    intro bytes h
    simp only [evictLoop]
    rw [h]
    rfl
  | cons e rest ih =>
    intro bytes h
    unfold evictLoop
    rw [if_pos (Or.inr (by omega))]
    apply ih
    rw [h]
    simp [cacheSizes]

/-- After the update-in-place removal, the remaining entries and byte
counter are still consistent. -/
theorem put_removed_consistent (c : FrameCache) (fp : String) (ms : ℤ)
    (hcons : c.current_bytes = cacheSizes c.entries) (old : CacheEntry)
    (rest : List CacheEntry) (hf : cacheFind c.entries fp ms = some (old, rest)) :
    c.current_bytes - old.frame.data.length = cacheSizes rest := by
  obtain ⟨l1, l2, hl, hr, _, _⟩ := cacheFind_spec fp ms c.entries old rest hf
  rw [hcons, hl, hr, cacheSizes_append, cacheSizes_append, cacheSizes_cons]
  omega

theorem putRemoved_consistent (c : FrameCache) (fp : String) (ms : ℤ)
    (hcons : c.current_bytes = cacheSizes c.entries) :
    (putRemoved c fp ms).2 = cacheSizes (putRemoved c fp ms).1 := by
  unfold putRemoved
  cases hf : cacheFind c.entries fp ms with
  | none => exact hcons
  | some pr =>
    obtain ⟨old, rest⟩ := pr
    exact put_removed_consistent c fp ms hcons old rest hf

/-- C10 (confirmed): every cache operation keeps the entry count within
`max_entries` (for the positive entry caps the renderer uses), and the
aggregate byte total can exceed `max_bytes` only in the
single-oversized-entry case: a put whose frame data alone exceeds
`max_bytes` evicts every previously cached entry and still inserts the
oversized frame, leaving exactly one entry whose size is the whole byte
total. -/
theorem C10_cache_invariants (c : FrameCache) (fp : String) (ms : ℤ)
    (frame : RenderedFrame)
    (hmax : 1 ≤ c.max_entries)
    (hcons : c.current_bytes = cacheSizes c.entries) :
    (c.get fp ms).2.entries.length = c.entries.length ∧
    c.clear.entries.length = 0 ∧
    (c.put fp ms frame).entries.length ≤ c.max_entries ∧
    (frame.data.length ≤ c.max_bytes →
      (c.put fp ms frame).current_bytes ≤ c.max_bytes) ∧
    (c.max_bytes < frame.data.length →
      (c.put fp ms frame).entries = [⟨fp, ms, frame⟩] ∧
      (c.put fp ms frame).current_bytes = frame.data.length) := by
  have hrm := putRemoved_consistent c fp ms hcons
  refine ⟨?_, rfl, ?_, ?_, ?_⟩
  · unfold FrameCache.get
    cases hf : cacheFind c.entries fp ms with
    | none => rfl
    | some pr =>
      obtain ⟨x, rest⟩ := pr
      obtain ⟨l1, l2, hl, hr, _, _⟩ := cacheFind_spec fp ms c.entries x rest hf
      simp only [hl, hr]
      simp [List.length_append]
  · rw [put_entries]
    rcases evictLoop_exit c.max_entries c.max_bytes frame.data.length
        (putRemoved c fp ms).1 (putRemoved c fp ms).2 with hexit | hexit
    · rw [List.length_append, hexit]
      simp only [List.length_nil, List.length_cons]
      omega
    · rw [List.length_append]
      simp only [List.length_cons, List.length_nil]
      omega
  · intro hfb
    rw [put_current_bytes]
    have hbytes := evictLoop_bytes c.max_entries c.max_bytes frame.data.length
      (putRemoved c fp ms).1 (putRemoved c fp ms).2 hrm
    rcases evictLoop_exit c.max_entries c.max_bytes frame.data.length
        (putRemoved c fp ms).1 (putRemoved c fp ms).2 with hexit | hexit
    · rw [hexit] at hbytes
      simp only [cacheSizes, List.map_nil, List.sum_nil] at hbytes
      omega
    · omega
  · intro hfb
    have hall := evictLoop_all c.max_entries c.max_bytes frame.data.length hfb
      (putRemoved c fp ms).1 (putRemoved c fp ms).2 hrm
    constructor
    · rw [put_entries, hall]
      rfl
    · rw [put_current_bytes, hall]
      omega

/-- C10 witness: a small cache (entry cap 3, byte cap 100) with one
oversized put — the 200-byte frame is inserted alone with the byte total
above the cap. -/
theorem C10_witness :
    ((FrameCache.new 3 100).put "a" 0 ⟨1, 1, List.replicate 200 0, 0, false⟩).entries
        = [⟨"a", 0, ⟨1, 1, List.replicate 200 0, 0, false⟩⟩] ∧
      ((FrameCache.new 3 100).put "a" 0 ⟨1, 1, List.replicate 200 0, 0, false⟩).current_bytes
        = (List.replicate (200 : ℕ) (0 : ℕ)).length := by
  have h := C10_cache_invariants (FrameCache.new 3 100) "a" 0
    ⟨1, 1, List.replicate 200 0, 0, false⟩ (by decide) rfl
  exact h.2.2.2.2 (by norm_num [FrameCache.new])

theorem putAll_fresh (rs : List (String × ℤ × RenderedFrame)) :
    ∀ c : FrameCache,
      c.current_bytes = cacheSizes c.entries →
      c.entries.length + rs.length ≤ c.max_entries →
      c.current_bytes + reqSizes rs ≤ c.max_bytes →
      (∀ r ∈ rs, ∀ e ∈ c.entries,
        ¬(e.file_path = r.1 ∧ e.source_time_ms = r.2.1)) →
      (rs.map reqKey).Nodup →
      (putAll c rs).entries = c.entries ++ rs.map toEntry ∧
      (putAll c rs).current_bytes = c.current_bytes + reqSizes rs ∧
      (putAll c rs).max_entries = c.max_entries ∧
      (putAll c rs).max_bytes = c.max_bytes := by
  induction rs with
  | nil =>
    intro c _ _ _ _ _
    refine ⟨?_, ?_, rfl, rfl⟩
    · simp [putAll]
    · simp [putAll, reqSizes]
  | cons r rest ih =>
    intro c h1 h2 h3 h4 h5
    have hfresh : ∀ e ∈ c.entries, ¬(e.file_path = r.1 ∧ e.source_time_ms = r.2.1) :=
      h4 r (List.mem_cons_self r rest)
    have hfind : cacheFind c.entries r.1 r.2.1 = Option.none :=
      cacheFind_none_of_fresh r.1 r.2.1 c.entries hfresh
    have hrem : putRemoved c r.1 r.2.1 = (c.entries, c.current_bytes) := by
      unfold putRemoved
      rw [hfind]
    have hsizes_cons : reqSizes (r :: rest) = r.2.2.data.length + reqSizes rest := by
      simp [reqSizes]
    have hevict :
        evictLoop c.max_entries c.max_bytes r.2.2.data.length c.entries c.current_bytes
          = (c.entries, c.current_bytes) := by
      apply evictLoop_no_evict
      · simp only [List.length_cons] at h2
        omega
      · omega
    have hput_entries : (c.put r.1 r.2.1 r.2.2).entries = c.entries ++ [toEntry r] := by
      rw [put_entries, hrem]
      rw [hevict]
      rfl
    have hput_bytes : (c.put r.1 r.2.1 r.2.2).current_bytes
        = c.current_bytes + r.2.2.data.length := by
      rw [put_current_bytes, hrem]
      rw [hevict]
    have hput_maxE : (c.put r.1 r.2.1 r.2.2).max_entries = c.max_entries := rfl
    have hput_maxB : (c.put r.1 r.2.1 r.2.2).max_bytes = c.max_bytes := rfl
    have hstep : putAll c (r :: rest) = putAll (c.put r.1 r.2.1 r.2.2) rest := rfl
    have hkey : ∀ r2 ∈ rest, reqKey r2 ≠ reqKey r := by
      intro r2 hr2 hkeq
      have := List.nodup_cons.mp h5
      exact this.1 (hkeq ▸ List.mem_map_of_mem reqKey hr2)
    have ihres := ih (c.put r.1 r.2.1 r.2.2)
      (by
        rw [hput_bytes, hput_entries, cacheSizes_append, h1]
        simp [cacheSizes, toEntry])
      (by
        rw [hput_entries, hput_maxE, List.length_append]
        simp only [List.length_cons] at h2
        simp only [List.length_cons, List.length_nil]
        omega)
      (by
        rw [hput_bytes, hput_maxB]
        rw [hsizes_cons] at h3
        omega)
      (by
        intro r2 hr2 e he
        rw [hput_entries] at he
        rcases List.mem_append.mp he with he | he
        · exact h4 r2 (List.mem_cons_of_mem r hr2) e he
        · have : e = toEntry r := by simpa using he
          subst this
          intro hcontra
          apply hkey r2 hr2
          unfold reqKey
          unfold toEntry at hcontra
          simp only at hcontra
          rw [Prod.ext_iff]
          exact ⟨hcontra.1.symm, hcontra.2.symm⟩)
      ((List.nodup_cons.mp h5).2)
    refine ⟨?_, ?_, ?_, ?_⟩
    · rw [hstep, ihres.1, hput_entries, List.append_assoc]
      simp
    · rw [hstep, ihres.2.1, hput_bytes, hsizes_cons]
      omega
    · rw [hstep, ihres.2.2.1, hput_maxE]
    · rw [hstep, ihres.2.2.2, hput_maxB]

theorem reqSizes_append (a b : List (String × ℤ × RenderedFrame)) :
    reqSizes (a ++ b) = reqSizes a + reqSizes b := by
  simp [reqSizes]

theorem putAll_append (c : FrameCache) (xs : List (String × ℤ × RenderedFrame))
    (x : String × ℤ × RenderedFrame) :
    putAll c (xs ++ [x]) = (putAll c xs).put x.1 x.2.1 x.2.2 := by
  unfold putAll
  rw [List.foldl_append]
  rfl

/-- C8 (amended): conjunct 1 — starting from an empty cache with entry
capacity `N ≥ 1`, inserting `N+1` distinct-keyed entries whose total byte
size fits the byte cap leaves exactly the last `N` entries (the first
inserted entry is evicted); conjunct 2 — a `get` hit moves the hit entry
to the most-recently-used end; conjunct 3 — the entry at the
most-recently-used end survives the next evicting `put` (cache at entry
capacity ≥ 2, new entry within the byte cap). -/
theorem C8_lru_behavior :
    (∀ (N B : ℕ) (rs : List (String × ℤ × RenderedFrame)),
      1 ≤ N → rs.length = N + 1 → (rs.map reqKey).Nodup → reqSizes rs ≤ B →
      (putAll (FrameCache.new N B) rs).entries = (rs.drop 1).map toEntry) ∧
    (∀ (c : FrameCache) (fp : String) (ms : ℤ) (x : CacheEntry) (rest : List CacheEntry),
      cacheFind c.entries fp ms = some (x, rest) →
      (c.get fp ms).2.entries = rest ++ [x] ∧
      (c.get fp ms).2.entries.getLast? = some x) ∧
    (∀ (c : FrameCache) (fp : String) (ms : ℤ) (frame : RenderedFrame) (x : CacheEntry),
      c.current_bytes = cacheSizes c.entries →
      c.entries.length = c.max_entries →
      2 ≤ c.max_entries →
      (∀ e ∈ c.entries, ¬(e.file_path = fp ∧ e.source_time_ms = ms)) →
      c.current_bytes + frame.data.length ≤ c.max_bytes →
      c.entries.getLast? = some x →
      x ∈ (c.put fp ms frame).entries) := by
  refine ⟨?_, ?_, ?_⟩
  · intro N B rs hN hlen hnodup hsz
    obtain ⟨r0, rest, rfl⟩ : ∃ r0 rest, rs = r0 :: rest := by
      cases rs with
      | nil => simp at hlen
      | cons a t => exact ⟨a, t, rfl⟩
    rcases List.eq_nil_or_concat rest with rfl | ⟨mid, lastR, rfl⟩
    · simp only [List.length_cons, List.length_nil] at hlen
      omega
    · rw [List.concat_eq_append] at hlen hnodup hsz ⊢
      have hlen' : mid.length + 1 = N := by
        simp only [List.length_cons, List.length_append, List.length_nil] at hlen
        omega
      have hsplit : r0 :: (mid ++ [lastR]) = (r0 :: mid) ++ [lastR] := by simp
      have hmap : ((r0 :: (mid ++ [lastR])).map reqKey)
          = ((r0 :: mid).map reqKey) ++ [reqKey lastR] := by simp
      rw [hmap] at hnodup
      have hnd := List.nodup_append.mp hnodup
      have hszs : reqSizes (r0 :: (mid ++ [lastR]))
          = reqSizes (r0 :: mid) + reqSizes [lastR] := by
        rw [hsplit, reqSizes_append]
      have hfill := putAll_fresh (r0 :: mid) (FrameCache.new N B) rfl
        (by
          simp only [FrameCache.new, List.length_nil, List.length_cons]
          omega)
        (by
          simp only [FrameCache.new]
          rw [hszs] at hsz
          omega)
        (by intro r hr e he; simp [FrameCache.new] at he)
        hnd.1
      obtain ⟨hent, hbyt, hmaxE, hmaxB⟩ := hfill
      rw [hsplit, putAll_append]
      have hfresh2 : ∀ e ∈ (putAll (FrameCache.new N B) (r0 :: mid)).entries,
          ¬(e.file_path = lastR.1 ∧ e.source_time_ms = lastR.2.1) := by
        intro e he hcontra
        rw [hent] at he
        simp only [FrameCache.new, List.nil_append] at he
        obtain ⟨r2, hr2, rfl⟩ := List.mem_map.mp he
        have hkeq : reqKey r2 = reqKey lastR := by
          unfold reqKey
          unfold toEntry at hcontra
          simp only at hcontra
          rw [Prod.ext_iff]
          exact ⟨hcontra.1, hcontra.2⟩
        have : reqKey lastR ∈ (r0 :: mid).map reqKey :=
          hkeq ▸ List.mem_map_of_mem reqKey hr2
        exact List.disjoint_right.mp hnd.2.2 (by simp) this
      have hfind := cacheFind_none_of_fresh lastR.1 lastR.2.1 _ hfresh2
      have hrem : putRemoved (putAll (FrameCache.new N B) (r0 :: mid)) lastR.1 lastR.2.1
          = ((putAll (FrameCache.new N B) (r0 :: mid)).entries,
             (putAll (FrameCache.new N B) (r0 :: mid)).current_bytes) := by
        unfold putRemoved
        rw [hfind]
      have hentcons : (putAll (FrameCache.new N B) (r0 :: mid)).entries
          = toEntry r0 :: mid.map toEntry := by
        rw [hent]
        simp [FrameCache.new]
      have hbyt' : (putAll (FrameCache.new N B) (r0 :: mid)).current_bytes
          = reqSizes (r0 :: mid) := by
        rw [hbyt]
        simp [FrameCache.new]
      have hszcons : reqSizes (r0 :: mid) = r0.2.2.data.length + reqSizes mid := by
        simp [reqSizes]
      have hpop := evictLoop_pop_one
        (putAll (FrameCache.new N B) (r0 :: mid)).max_entries
        (putAll (FrameCache.new N B) (r0 :: mid)).max_bytes
        lastR.2.2.data.length
        (toEntry r0) (mid.map toEntry)
        (putAll (FrameCache.new N B) (r0 :: mid)).current_bytes
        (Or.inl (by
          rw [hmaxE]
          simp only [FrameCache.new, List.length_cons, List.length_map]
          omega))
        (by
          rw [hmaxE]
          simp only [FrameCache.new, List.length_map]
          omega)
        (by
          rw [hmaxB, hbyt']
          simp only [FrameCache.new]
          rw [hszcons]
          have : reqSizes [lastR] = lastR.2.2.data.length := by simp [reqSizes]
          rw [hszs, hszcons, this] at hsz
          have hto : (toEntry r0).frame.data.length = r0.2.2.data.length := rfl
          rw [hto]
          omega)
      rw [put_entries, hrem]
      have hstep : evictLoop (putAll (FrameCache.new N B) (r0 :: mid)).max_entries
          (putAll (FrameCache.new N B) (r0 :: mid)).max_bytes lastR.2.2.data.length
          (putAll (FrameCache.new N B) (r0 :: mid)).entries
          (putAll (FrameCache.new N B) (r0 :: mid)).current_bytes
          = (mid.map toEntry,
             (putAll (FrameCache.new N B) (r0 :: mid)).current_bytes
               - (toEntry r0).frame.data.length) := by
        rw [hentcons]
        exact hpop
      rw [hstep]
      simp [toEntry]
  · intro c fp ms x rest hf
    constructor
    · unfold FrameCache.get
      rw [hf]
    · unfold FrameCache.get
      rw [hf]
      exact List.getLast?_concat rest
  · intro c fp ms frame x hcons hlen hmax hfresh hbytes hlast
    have hfind := cacheFind_none_of_fresh fp ms c.entries hfresh
    have hrem : putRemoved c fp ms = (c.entries, c.current_bytes) := by
      unfold putRemoved
      rw [hfind]
    obtain ⟨e, tail, hent⟩ : ∃ e tail, c.entries = e :: tail := by
      cases hc : c.entries with
      | nil => rw [hc] at hlen; simp only [List.length_nil] at hlen; omega
      | cons a t => exact ⟨a, t, rfl⟩
    have hlen2 : (e :: tail).length = c.max_entries := by rw [← hent]; exact hlen
    have htail_ne : tail ≠ [] := by
      intro h
      rw [h] at hlen2
      simp only [List.length_cons, List.length_nil] at hlen2
      omega
    have hpop := evictLoop_pop_one c.max_entries c.max_bytes frame.data.length e tail
      c.current_bytes (Or.inl (le_of_eq hlen2.symm))
      (by simp only [List.length_cons] at hlen2; omega)
      (by omega)
    have hevict : evictLoop c.max_entries c.max_bytes frame.data.length
        (putRemoved c fp ms).1 (putRemoved c fp ms).2
        = (tail, c.current_bytes - e.frame.data.length) := by
      rw [hrem]
      rw [show ((c.entries, c.current_bytes) : List CacheEntry × ℕ).1 = c.entries from rfl,
        show ((c.entries, c.current_bytes) : List CacheEntry × ℕ).2 = c.current_bytes from rfl]
      rw [hent]
      exact hpop
    rw [put_entries, hevict]
    have hxtail : x ∈ tail := by
      rw [hent] at hlast
      obtain ⟨b, tail2, rfl⟩ : ∃ b tail2, tail = b :: tail2 := by
        cases tail with
        | nil => exact absurd rfl htail_ne
        | cons b t => exact ⟨b, t, rfl⟩
      rw [List.getLast?_cons_cons] at hlast
      exact List.mem_of_getLast?_eq_some hlast
    exact List.mem_append_left _ hxtail

/-- C8 (counterexample): with entry capacity 2, byte cap 100 and three
distinct entries of 60 bytes each (each within the byte cap), the byte
cap evicts more than the single oldest entry: after the three puts only
the third entry remains, so the second entry — one of "the other N" the
claim requires present — is absent. -/
theorem C8_counterexample :
    (List.replicate 60 (0 : ℕ)).length ≤ 100 ∧
      ((putAll (FrameCache.new 2 100)
          [("a", 0, ⟨1, 1, List.replicate 60 0, 0, false⟩),
           ("b", 0, ⟨1, 1, List.replicate 60 0, 0, false⟩),
           ("c", 0, ⟨1, 1, List.replicate 60 0, 0, false⟩)]).get "b" 0).1
        = Option.none := by
  constructor
  · simp
  · rfl

/-- C8 witness: entry capacity 2 with three small distinct entries whose
total size fits the byte cap — the first entry is evicted and the last
two remain in order. -/
theorem C8_witness :
    (putAll (FrameCache.new 2 1000)
        [("a", 0, ⟨1, 1, [1], 0, false⟩), ("b", 0, ⟨1, 1, [2], 0, false⟩),
         ("c", 0, ⟨1, 1, [3], 0, false⟩)]).entries
      = [⟨"b", 0, ⟨1, 1, [2], 0, false⟩⟩, ⟨"c", 0, ⟨1, 1, [3], 0, false⟩⟩] := by
  have h := C8_lru_behavior.1 2 1000
    [("a", 0, ⟨1, 1, [1], 0, false⟩), ("b", 0, ⟨1, 1, [2], 0, false⟩),
     ("c", 0, ⟨1, 1, [3], 0, false⟩)] (by norm_num) (by decide) (by decide) (by decide)
  simpa [toEntry] using h

/-! ## AudioMixer (src/rust-engine/src/encoding/audio_mixer.rs)

`f32`/`f64` audio arithmetic is modelled over `ℚ`; the decoder cache and
the decoders behind it, and the maths library's `tanh`, are supplied by an
environment.  Besides the mixed buffer, the model returns the list of
`decode_range` requests issued, so that theorems can speak about what the
mixer asks of the decoder. -/

/-- Modelled from the spec: `AudioClip` — placement
`[start_time_ms, start_time_ms + duration_ms)`, source-side trim, volume,
playback speed and fades (`timeline/clip.rs` is not among the provided
sources). -/
structure AudioClip where
  id : ℕ
  file_path : String
  start_time_ms : ℤ
  duration_ms : ℤ
  trim_start_ms : ℤ
  trim_end_ms : ℤ
  volume : ℚ
  speed : ℚ
  fade_in_ms : ℤ
  fade_out_ms : ℤ
  deriving DecidableEq, Repr

/-- Modelled from the spec: the clip ends at `start_time_ms + duration_ms`
(placement range is half-open). -/
def AudioClip.end_time_ms (c : AudioClip) : ℤ :=
  c.start_time_ms + c.duration_ms

/-- `calc_fade_volume`: linear attenuation inside the fade-in and fade-out
windows, clamped to `[0, 1]`. -/
def calc_fade_volume (clip : AudioClip) (timestamp_ms : ℤ) : ℚ :=
  let clip_time := timestamp_ms - clip.start_time_ms
  let clip_end_offset := clip.duration_ms
  let fade1 : ℚ :=
    if 0 < clip.fade_in_ms ∧ clip_time < clip.fade_in_ms then
      1 * ((clip_time : ℚ) / (clip.fade_in_ms : ℚ))
    else 1
  let fade2 : ℚ :=
    if 0 < clip.fade_out_ms ∧ clip_end_offset - clip_time < clip.fade_out_ms then
      fade1 * (((clip_end_offset - clip_time : ℤ) : ℚ) / (clip.fade_out_ms : ℚ))
    else fade1
  min (max fade2 0) 1

/-- Environment for the mixer: per-path decoder opening, `decode_range`
results, and the maths library's `tanh`. -/
structure MixEnv where
  openOk : String → Bool
  decode : String → ℤ → ℚ → Except String (List ℚ)
  tanh : ℚ → ℚ

/-- One clip's contribution in `mix_range`: the overlap check, the
timeline→source mapping, decoding, and volume/fade accumulation (direct
add at `speed == 1.0`, linear-interpolation resampling otherwise).
Returns the updated mix buffer and the decode request issued (if any). -/
def mixClip (env : MixEnv) (mixed : List ℚ) (clip : AudioClip) (timestamp_ms : ℤ)
    (duration_ms : ℚ) : List ℚ × List (String × ℤ × ℚ) :=
  if timestamp_ms ≥ clip.end_time_ms ∨
      timestamp_ms + ratTrunc duration_ms ≤ clip.start_time_ms then
    (mixed, [])
  else
    let clip_offset := timestamp_ms - clip.start_time_ms
    let source_start := clip.trim_start_ms + ratTrunc ((clip_offset : ℚ) * clip.speed)
    let source_duration := duration_ms * clip.speed
    if ¬ env.openOk clip.file_path then (mixed, [])
    else
      match env.decode clip.file_path source_start source_duration with
      | .error _ => (mixed, [(clip.file_path, source_start, source_duration)])
      | .ok samples =>
        let effective_volume := clip.volume * calc_fade_volume clip timestamp_ms
        let mixed2 :=
          if clip.speed = 1 then
            mixed.mapIdx fun i x =>
              if i < samples.length then x + samples.getD i 0 * effective_volume else x
          else if samples.length = 0 then mixed
          else
            mixed.mapIdx fun i x =>
              let src_pos := (i : ℚ) * clip.speed
              let src_idx := ratToUsize src_pos
              let frac := src_pos - (src_idx : ℚ)
              if src_idx + 1 < samples.length then
                x + (samples.getD src_idx 0 * (1 - frac)
                  + samples.getD (src_idx + 1) 0 * frac) * effective_volume
              else if src_idx < samples.length then
                x + samples.getD src_idx 0 * effective_volume
              else x
        (mixed2, [(clip.file_path, source_start, source_duration)])

/-- `AudioMixer::mix_range`: a zeroed stereo buffer of
`⌊duration/1000 × 48000⌋ × 2` samples, per-clip accumulation, then `tanh`
soft-clipping of samples outside `[-1, 1]`. -/
def mix_range (env : MixEnv) (audio_clips : List AudioClip) (timestamp_ms : ℤ)
    (duration_ms : ℚ) : List ℚ × List (String × ℤ × ℚ) :=
  let num_samples := ratToUsize (duration_ms / 1000 * 48000) * 2
  let mixed0 := List.replicate num_samples (0 : ℚ)
  if audio_clips.isEmpty then (mixed0, [])
  else
    let step := audio_clips.foldl
      (fun acc clip =>
        let r := mixClip env acc.1 clip timestamp_ms duration_ms
        (r.1, acc.2 ++ r.2))
      (mixed0, [])
    (step.1.map fun s => if 1 < s ∨ s < -1 then env.tanh s else s, step.2)

/-- The decode request a single clip issues (independent of the mix
buffer). -/
def clipRequest (env : MixEnv) (clip : AudioClip) (timestamp_ms : ℤ)
    (duration_ms : ℚ) : List (String × ℤ × ℚ) :=
  if timestamp_ms ≥ clip.end_time_ms ∨
      timestamp_ms + ratTrunc duration_ms ≤ clip.start_time_ms then []
  else if ¬ env.openOk clip.file_path then []
  else
    [(clip.file_path,
      clip.trim_start_ms + ratTrunc (((timestamp_ms - clip.start_time_ms : ℤ) : ℚ) * clip.speed),
      duration_ms * clip.speed)]

theorem mixClip_requests (env : MixEnv) (mixed : List ℚ) (clip : AudioClip)
    (t : ℤ) (d : ℚ) :
    (mixClip env mixed clip t d).2 = clipRequest env clip t d := by
  unfold mixClip clipRequest
  by_cases hskip : t ≥ clip.end_time_ms ∨ t + ratTrunc d ≤ clip.start_time_ms
  · rw [if_pos hskip, if_pos hskip]
  · rw [if_neg hskip, if_neg hskip]
    by_cases hopen : ¬ env.openOk clip.file_path = true
    · rw [if_pos hopen, if_pos hopen]
    · rw [if_neg hopen, if_neg hopen]
      cases env.decode clip.file_path
          (clip.trim_start_ms + ratTrunc (((t - clip.start_time_ms : ℤ) : ℚ) * clip.speed))
          (d * clip.speed) <;> rfl

theorem mixFold_requests (env : MixEnv) (t : ℤ) (d : ℚ) :
    ∀ (clips : List AudioClip) (mixed : List ℚ) (acc : List (String × ℤ × ℚ)),
      (clips.foldl
        (fun acc clip =>
          let r := mixClip env acc.1 clip t d
          (r.1, acc.2 ++ r.2))
        (mixed, acc)).2
      = acc ++ (clips.map fun c => clipRequest env c t d).flatten := by
  intro clips
  induction clips with
  | nil => intro mixed acc; simp
  | cons c cs ih =>
    intro mixed acc
    rw [List.foldl_cons]
    rw [ih]
    rw [List.map_cons, List.flatten_cons, mixClip_requests]
    rw [List.append_assoc]

theorem mix_range_requests (env : MixEnv) (clips : List AudioClip) (t : ℤ) (d : ℚ) :
    (mix_range env clips t d).2 = (clips.map fun c => clipRequest env c t d).flatten := by
  unfold mix_range
  by_cases hempty : clips.isEmpty
  · rw [if_pos hempty]
    rw [List.isEmpty_iff.mp hempty]
    rfl
  · rw [if_neg hempty]
    exact mixFold_requests env t d clips _ []

/-- C1 (confirmed): for every clip and every timeline time `t` with
`start_time_ms ≤ t < start_time_ms + duration_ms` (and a mix duration
whose `i64` truncation is positive, as for every real chunk the engine
uses), the source time `mix_range` requests of the decoder for that clip
is exactly `trim_start_ms + (t − start_time_ms) × speed`, with the product
truncated like the Rust `as i64` cast. -/
theorem C1_source_time (env : MixEnv) (clips : List AudioClip) (clip : AudioClip)
    (t : ℤ) (d : ℚ)
    (hmem : clip ∈ clips)
    (h1 : clip.start_time_ms ≤ t)
    (h2 : t < clip.start_time_ms + clip.duration_ms)
    (hd : 1 ≤ ratTrunc d)
    (hopen : env.openOk clip.file_path = true) :
    clipRequest env clip t d
      = [(clip.file_path,
          clip.trim_start_ms + ratTrunc (((t - clip.start_time_ms : ℤ) : ℚ) * clip.speed),
          d * clip.speed)] ∧
    (clip.file_path,
      clip.trim_start_ms + ratTrunc (((t - clip.start_time_ms : ℤ) : ℚ) * clip.speed),
      d * clip.speed) ∈ (mix_range env clips t d).2 := by
  have hreq : clipRequest env clip t d
      = [(clip.file_path,
          clip.trim_start_ms + ratTrunc (((t - clip.start_time_ms : ℤ) : ℚ) * clip.speed),
          d * clip.speed)] := by
    unfold clipRequest
    rw [if_neg (by
      push_neg
      constructor
      · unfold AudioClip.end_time_ms
        omega
      · omega)]
    rw [if_neg (by simp [hopen])]
  refine ⟨hreq, ?_⟩
  rw [mix_range_requests]
  have : (clip.file_path,
      clip.trim_start_ms + ratTrunc (((t - clip.start_time_ms : ℤ) : ℚ) * clip.speed),
      d * clip.speed) ∈ clipRequest env clip t d := by
    rw [hreq]
    exact List.mem_singleton.mpr rfl
  exact List.mem_flatten.mpr ⟨clipRequest env clip t d,
    List.mem_map_of_mem (fun c => clipRequest env c t d) hmem, this⟩

/-- C1 witness: a clip placed at `[1000, 5000)` with `trim_start = 500`
and `speed = 2` queried at `t = 2000` with a 33.33 ms chunk — the decoder
is asked for source time `500 + (2000 − 1000)·2 = 2500`. -/
theorem C1_witness :
    clipRequest
        ⟨fun _ => true, fun _ _ _ => Except.ok [], fun q => q⟩
        ⟨1, "a.mp4", 1000, 4000, 500, 9000, 1, 2, 0, 0⟩
        2000 (100 / 3)
      = [("a.mp4", 2500, 100 / 3 * 2)] := by
  have h := C1_source_time ⟨fun _ => true, fun _ _ _ => Except.ok [], fun q => q⟩
    [⟨1, "a.mp4", 1000, 4000, 500, 9000, 1, 2, 0, 0⟩]
    ⟨1, "a.mp4", 1000, 4000, 500, 9000, 1, 2, 0, 0⟩
    2000 (100 / 3) (List.mem_singleton.mpr rfl) (by norm_num) (by norm_num)
    (by
      rw [ratTrunc_of_nonneg _ (by norm_num)]
      exact Int.le_floor.mpr (by norm_num))
    rfl
  rw [h.1]
  dsimp only
  rw [show ((2000 - 1000 : ℤ) : ℚ) * 2 = ((2000 : ℤ) : ℚ) by norm_num]
  rw [ratTrunc_intCast]
  norm_num

/-! ## AudioDecoder (src/rust-engine/src/encoding/audio_decoder.rs)

The container and the ffmpeg decode/resample machinery are abstracted:
what the decode loop of `decode_range` sees is a sequence of
decoded-and-resampled frames, each with a presentation time (already
converted to ms), a duration in ms, and its output samples.  A packet
read followed by `receive_frame` delivers the next frame of that
sequence; reaching the end of the sequence is EOF. -/

/-- One decoded audio frame as the `decode_range` loop sees it. -/
structure AFrame where
  pts : Option ℤ
  dur_ms : ℤ
  samples : List ℚ
  deriving DecidableEq, Repr

/-- `AudioDecoder` state: frames still decodable in order from the
container position, the leftover carry buffer, and `current_pos_ms`. -/
structure AudioDec where
  frames : List AFrame
  leftover_samples : List ℚ
  current_pos_ms : ℤ
  deriving DecidableEq, Repr

/-- `SkipResult`: the post-seek PTS skip decision. -/
inductive SkipResult
  | SkipEntire
  | SkipPart (skip_count : ℕ)
  | NoSkip
  deriving DecidableEq, Repr

/-- `check_skip`: a frame fully before the target is dropped; a partially
overlapping frame loses its leading
`(target − frame_start) × 48000 × 2 / 1000` samples; a frame at or past
the target (or without a PTS) is used in full. -/
def check_skip (target_ms : ℤ) (f : AFrame) : SkipResult :=
  match f.pts with
  | Option.none => .NoSkip
  | some pts =>
    if pts + f.dur_ms ≤ target_ms then .SkipEntire
    else if pts < target_ms then
      .SkipPart ((target_ms - pts).toNat * 48000 * 2 / 1000)
    else .NoSkip

/-- The packet/receive loop of `decode_range`: consume frames in order
(applying the post-seek skip while active) until the accumulated samples
reach `num` or the container is exhausted.  Frames not consumed stay
available for the next call (they sit in the decoder/container). -/
def drainLoop (start_ms : ℤ) (num : ℕ) :
    Bool → List ℚ → List AFrame → List ℚ × List AFrame
  | _, acc, [] => (acc, [])
  | skipActive, acc, f :: rest =>
    if num ≤ acc.length then (acc, f :: rest)
    else
      if skipActive then
        match check_skip start_ms f with
        | .SkipEntire => drainLoop start_ms num true acc rest
        | .SkipPart k => drainLoop start_ms num false (acc ++ f.samples.drop k) rest
        | .NoSkip => drainLoop start_ms num false (acc ++ f.samples) rest
      else drainLoop start_ms num false (acc ++ f.samples) rest

/-- Environment for the audio decoder: the container's response to a
seek — `Option.none` models a failed `avformat_seek_file`, `some fs` the
frames decodable after repositioning to the preceding keyframe. -/
structure ADecEnv where
  seekFrames : ℤ → Option (List AFrame)

/-- The body of `decode_range` after the seek decision: consume the
leftover buffer first (early return if it suffices), then drain frames;
overflow beyond `num` goes to the leftover buffer, underflow is padded
with silence; `current_pos_ms` advances by the ceiling of the duration. -/
def decodeRangeCore (d : AudioDec) (start_ms : ℤ) (num : ℕ) (duration_i : ℤ)
    (didSeek : Bool) : List ℚ × AudioDec :=
  if num ≤ (d.leftover_samples.take (min d.leftover_samples.length num)).length then
    (d.leftover_samples.take (min d.leftover_samples.length num),
     { d with
        leftover_samples := d.leftover_samples.drop (min d.leftover_samples.length num),
        current_pos_ms := start_ms + duration_i })
  else
    if num < (drainLoop start_ms num didSeek
        (d.leftover_samples.take (min d.leftover_samples.length num)) d.frames).1.length then
      ((drainLoop start_ms num didSeek
          (d.leftover_samples.take (min d.leftover_samples.length num)) d.frames).1.take num,
       { frames := (drainLoop start_ms num didSeek
            (d.leftover_samples.take (min d.leftover_samples.length num)) d.frames).2,
         leftover_samples := (drainLoop start_ms num didSeek
            (d.leftover_samples.take (min d.leftover_samples.length num)) d.frames).1.drop num,
         current_pos_ms := start_ms + duration_i })
    else
      ((drainLoop start_ms num didSeek
          (d.leftover_samples.take (min d.leftover_samples.length num)) d.frames).1
         ++ List.replicate (num - (drainLoop start_ms num didSeek
              (d.leftover_samples.take (min d.leftover_samples.length num)) d.frames).1.length) 0,
       { frames := (drainLoop start_ms num didSeek
            (d.leftover_samples.take (min d.leftover_samples.length num)) d.frames).2,
         leftover_samples := d.leftover_samples.drop (min d.leftover_samples.length num),
         current_pos_ms := start_ms + duration_i })

/-- `decode_range(start_ms, duration_ms)`: request
`⌊duration/1000 × 48000⌋ × 2` samples; seek when the request is not
sequential (backwards, or more than 1 s ahead), flushing and discarding
leftovers; then run the decode loop. -/
def AudioDec.decode_range (env : ADecEnv) (d : AudioDec) (start_ms : ℤ)
    (duration_ms : ℚ) : Except String (List ℚ) × AudioDec :=
  if start_ms < d.current_pos_ms ∨ d.current_pos_ms + 1000 < start_ms then
    match env.seekFrames start_ms with
    | Option.none => (.error "Audio seek failed", d)
    | some fs =>
      ((decodeRangeCore ⟨fs, [], start_ms⟩ start_ms
          (ratToUsize (duration_ms / 1000 * 48000) * 2) ⌈duration_ms⌉ true).1
        |> Except.ok,
       (decodeRangeCore ⟨fs, [], start_ms⟩ start_ms
          (ratToUsize (duration_ms / 1000 * 48000) * 2) ⌈duration_ms⌉ true).2)
  else
    ((decodeRangeCore d start_ms
        (ratToUsize (duration_ms / 1000 * 48000) * 2) ⌈duration_ms⌉ false).1
      |> Except.ok,
     (decodeRangeCore d start_ms
        (ratToUsize (duration_ms / 1000 * 48000) * 2) ⌈duration_ms⌉ false).2)

theorem drainLoop_false_spec (start_ms : ℤ) (num : ℕ) :
    ∀ (frames : List AFrame) (acc : List ℚ),
      ∃ consumed,
        frames = consumed ++ (drainLoop start_ms num false acc frames).2 ∧
        (drainLoop start_ms num false acc frames).1
          = acc ++ (consumed.map AFrame.samples).flatten ∧
        ((drainLoop start_ms num false acc frames).1.length < num →
          (drainLoop start_ms num false acc frames).2 = []) := by
  intro frames
  induction frames with
  | nil =>
    intro acc
    exact ⟨[], rfl, by simp [drainLoop], fun _ => rfl⟩
  | cons f rest ih =>
    intro acc
    by_cases hacc : num ≤ acc.length
    · refine ⟨[], ?_, ?_, ?_⟩
      · simp [drainLoop, hacc]
      · simp [drainLoop, hacc]
      · intro hlt
        simp only [drainLoop, if_pos hacc] at hlt
        omega
    · obtain ⟨consumed, hc1, hc2, hc3⟩ := ih (acc ++ f.samples)
      have hstep : drainLoop start_ms num false acc (f :: rest)
          = drainLoop start_ms num false (acc ++ f.samples) rest := by
        simp [drainLoop, hacc]
      refine ⟨f :: consumed, ?_, ?_, ?_⟩
      · rw [hstep, List.cons_append]
        exact congrArg (f :: ·) hc1
      · rw [hstep, hc2]
        simp
      · rw [hstep]
        exact hc3

/-- C2 (confirmed): a sequential `decode_range` call (within the no-seek
window, as in any contiguous call sequence) succeeds and returns exactly
`⌊duration_ms/1000 × 48000⌋ × 2` samples; the old leftover buffer is
consumed first, samples decoded beyond the requested count become the new
leftover, underflow is padded with silence, and nothing is lost: the
output followed by the new leftover equals the old leftover followed by
every decoded sample plus the padding, and padding occurs only when the
container and the leftover are both exhausted. -/
theorem C2_decode_range (env : ADecEnv) (d : AudioDec) (start_ms : ℤ) (duration_ms : ℚ)
    (h1 : d.current_pos_ms ≤ start_ms) (h2 : start_ms ≤ d.current_pos_ms + 1000)
    (hd : 0 ≤ duration_ms) :
    ∃ out d2,
      AudioDec.decode_range env d start_ms duration_ms = (.ok out, d2) ∧
      out.length = (⌊duration_ms / 1000 * 48000⌋).toNat * 2 ∧
      ∃ consumed pad,
        d.frames = consumed ++ d2.frames ∧
        out ++ d2.leftover_samples =
          d.leftover_samples ++ (consumed.map AFrame.samples).flatten
            ++ List.replicate pad 0 ∧
        (0 < pad → d2.frames = [] ∧ d2.leftover_samples = []) := by
  have hnum : ratToUsize (duration_ms / 1000 * 48000) * 2
      = (⌊duration_ms / 1000 * 48000⌋).toNat * 2 := by
    unfold ratToUsize
    rw [ratTrunc_of_nonneg _ (by positivity)]
  have hnoseek : ¬(start_ms < d.current_pos_ms ∨ d.current_pos_ms + 1000 < start_ms) := by
    push_neg
    exact ⟨h1, h2⟩
  unfold AudioDec.decode_range
  rw [if_neg hnoseek]
  set num := ratToUsize (duration_ms / 1000 * 48000) * 2 with hnumdef
  unfold decodeRangeCore
  by_cases hA : num ≤ (d.leftover_samples.take (min d.leftover_samples.length num)).length
  · rw [if_pos hA]
    refine ⟨_, _, rfl, ?_, [], 0, by simp, ?_, by omega⟩
    · dsimp only
      rw [← hnum]
      rw [List.length_take] at hA ⊢
      omega
    · dsimp only
      simp only [List.map_nil, List.flatten_nil, List.replicate_zero, List.append_nil]
      exact List.take_append_drop _ _
  · rw [if_neg hA]
    have htake : min d.leftover_samples.length num = d.leftover_samples.length := by
      rw [List.length_take] at hA
      omega
    have htake2 : d.leftover_samples.take (min d.leftover_samples.length num)
        = d.leftover_samples := by
      rw [htake]
      exact List.take_length d.leftover_samples
    obtain ⟨consumed, hc1, hc2, hc3⟩ := drainLoop_false_spec start_ms num d.frames
      (d.leftover_samples.take (min d.leftover_samples.length num))
    by_cases hB : num < (drainLoop start_ms num false
        (d.leftover_samples.take (min d.leftover_samples.length num)) d.frames).1.length
    · rw [if_pos hB]
      refine ⟨_, _, rfl, ?_, consumed, 0, ?_, ?_, by omega⟩
      · dsimp only
        rw [← hnum, List.length_take]
        omega
      · dsimp only
        exact hc1
      · dsimp only
        simp only [List.replicate_zero, List.append_nil]
        rw [List.take_append_drop, hc2, htake2]
    · rw [if_neg hB]
      refine ⟨_, _, rfl, ?_, consumed,
        num - (drainLoop start_ms num false
          (d.leftover_samples.take (min d.leftover_samples.length num)) d.frames).1.length,
        ?_, ?_, ?_⟩
      · dsimp only
        rw [← hnum, List.length_append, List.length_replicate]
        omega
      · dsimp only
        exact hc1
      · dsimp only
        have hdropnil : d.leftover_samples.drop (min d.leftover_samples.length num) = [] := by
          rw [htake]
          exact List.drop_length d.leftover_samples
        rw [hdropnil, List.append_nil, hc2, htake2]
      · intro hpad
        have hlt : (drainLoop start_ms num false
            (d.leftover_samples.take (min d.leftover_samples.length num)) d.frames).1.length
            < num := by omega
        refine ⟨hc3 hlt, ?_⟩
        dsimp only
        rw [htake]
        exact List.drop_length d.leftover_samples

/-- C2 witness: two leftover samples plus a four-sample frame exactly fill
a request for `⌊(1/16)/1000 × 48000⌋ × 2 = 6` samples with no padding. -/
theorem C2_witness :
    ∃ out d2,
      AudioDec.decode_range ⟨fun _ => Option.none⟩
          ⟨[⟨some 0, 10, [1, 2, 3, 4]⟩], [9, 8], 0⟩ 0 (1 / 16)
        = (.ok out, d2) ∧
      out.length = (⌊(1 / 16 : ℚ) / 1000 * 48000⌋).toNat * 2 ∧
      ∃ consumed pad,
        ([⟨some 0, 10, [1, 2, 3, 4]⟩] : List AFrame) = consumed ++ d2.frames ∧
        out ++ d2.leftover_samples =
          [9, 8] ++ (consumed.map AFrame.samples).flatten ++ List.replicate pad 0 ∧
        (0 < pad → d2.frames = [] ∧ d2.leftover_samples = []) :=
  C2_decode_range ⟨fun _ => Option.none⟩ ⟨[⟨some 0, 10, [1, 2, 3, 4]⟩], [9, 8], 0⟩ 0 (1 / 16)
    (by norm_num) (by norm_num) (by norm_num)

/-! ## Stateful video decoder (src/rust-engine/src/ffmpeg/decoder.rs)

The decoder state machine is embedded with the ffmpeg machinery behind an
environment: the container seek (per attempt), the packet scan toward a
target (Step 1/Step 2 of `decode_frame`, including the PTS matching and
the 3000-packet cap), and `convert_frame` (scaling/extraction). -/

/-- `PixelFormat`. -/
inductive PixelFormat
  | RGBA
  | RGB
  | YUV420P
  deriving DecidableEq, Repr

/-- `Frame`: decoded video frame stamped with the requested timeline
timestamp. -/
structure Frame where
  width : ℕ
  height : ℕ
  format : PixelFormat
  data : List ℕ
  timestamp_ms : ℤ
  deriving DecidableEq, Repr

/-- `DecoderState`. -/
inductive DecoderState
  | Ready
  | EndOfStream
  | Error
  deriving DecidableEq, Repr

/-- `DecodeResult`. -/
inductive DecodeResult
  | Frame (f : Frame)
  | FrameSkipped
  | EndOfStream (f : Frame)
  | EndOfStreamEmpty
  deriving DecidableEq, Repr

/-- A raw (pre-scaling) frame delivered by the decoding library. -/
structure RawFrame where
  pts : Option ℤ
  payload : List ℕ
  deriving DecidableEq, Repr

/-- The outcome of the packet scan of `decode_frame` (Steps 1–2): a
PTS-matching frame was found; the packet cap was hit (`skipped`); or the
container was exhausted, with or without a latest-seen fallback frame. -/
inductive ScanResult
  | found (f : RawFrame)
  | skipped
  | eofSeen (f : RawFrame)
  | eofNone
  deriving DecidableEq, Repr

/-- Environment: container seek success per attempt number and
microsecond target, the packet scan toward a requested timestamp, and
`convert_frame`. -/
structure DecodeEnv where
  containerSeek : ℕ → ℤ → Bool
  scan : ℤ → ScanResult
  convert : RawFrame → ℤ → Except String Frame

/-- `Decoder` state (the parts `decode_frame`/`seek` read and write). -/
structure VDecoder where
  state : DecoderState
  last_decoded_frame : Option Frame
  eof_timestamp_ms : Option ℤ
  last_timestamp_ms : ℤ
  forward_threshold_ms : ℤ
  fps : ℚ
  deriving Repr

/-- The `EndOfStream(last)` / `EndOfStreamEmpty` fallback result. -/
def lastResult (d : VDecoder) : DecodeResult :=
  match d.last_decoded_frame with
  | some f => .EndOfStream f
  | Option.none => .EndOfStreamEmpty

/-- `Decoder::seek`: convert to microseconds (`timestamp_ms × 1000`, the
container's `AV_TIME_BASE` units), seek backwards-or-at; on success flush
and return to `Ready` (clearing the EOF marker); on failure flush and
retry once — a retry success also returns to `Ready` (the source does
*not* clear the EOF marker on this path); a second failure transitions to
`Error`.  The returned `Bool` is `Ok`/`Err`. -/
def VDecoder.seek (d : VDecoder) (env : DecodeEnv) (timestamp_ms : ℤ) :
    VDecoder × Bool :=
  if env.containerSeek 1 (timestamp_ms * 1000) then
    ({ d with state := .Ready, eof_timestamp_ms := Option.none }, true)
  else if env.containerSeek 2 (timestamp_ms * 1000) then
    ({ d with state := .Ready }, true)
  else
    ({ d with state := .Error }, false)

/-- The body of `decode_frame` after the Error/EOF-cache early returns:
classify the request (immediate / forward / random access), seek if
needed, then scan; EOF records the requested timestamp and falls back to
the latest-seen or last frame. -/
def decode_frame_core (env : DecodeEnv) (d : VDecoder) (timestamp_ms : ℤ) :
    Except String DecodeResult × VDecoder :=
  let frame_duration_ms := ratTrunc (max (1000 / d.fps) 1)
  let is_ahead := d.state = DecoderState.Ready ∧ d.last_timestamp_ms ≤ timestamp_ms
  let gap_ms := timestamp_ms - d.last_timestamp_ms
  let is_immediate := is_ahead ∧ gap_ms ≤ frame_duration_ms * 2
  let is_forward := is_ahead ∧ ¬(is_immediate) ∧ gap_ms ≤ d.forward_threshold_ms
  if ¬(is_immediate) ∧ ¬(is_forward) then
    match d.seek env timestamp_ms with
    | (d2, false) =>
      (.ok (match d2.last_decoded_frame with
        | some _ => DecodeResult.FrameSkipped
        | Option.none => DecodeResult.EndOfStreamEmpty), d2)
    | (d2, true) => decode_frame_scan env { d2 with last_timestamp_ms := timestamp_ms }
        timestamp_ms
  else decode_frame_scan env { d with last_timestamp_ms := timestamp_ms } timestamp_ms
where
  /-- Steps 1–2 of `decode_frame` plus result classification. -/
  decode_frame_scan (env : DecodeEnv) (d : VDecoder) (timestamp_ms : ℤ) :
      Except String DecodeResult × VDecoder :=
    match env.scan timestamp_ms with
    | .found raw =>
      match env.convert raw timestamp_ms with
      | .ok frame =>
        (.ok (.Frame frame),
         { d with last_decoded_frame := some frame, state := .Ready })
      | .error e => (.error e, d)
    | .skipped => (.ok .FrameSkipped, d)
    | .eofSeen raw =>
      match env.convert raw timestamp_ms with
      | .ok frame =>
        (.ok (.EndOfStream frame),
         { d with state := .EndOfStream, eof_timestamp_ms := some timestamp_ms,
                  last_decoded_frame := some frame })
      | .error _ =>
        (.ok (lastResult d),
         { d with state := .EndOfStream, eof_timestamp_ms := some timestamp_ms })
    | .eofNone =>
      (.ok (lastResult d),
       { d with state := .EndOfStream, eof_timestamp_ms := some timestamp_ms })

/-- `Decoder::decode_frame`: Error state returns the last frame; a cached
EOF at or before the requested timestamp short-circuits to the last
frame; a request strictly before the cached EOF clears the marker and
proceeds. -/
def VDecoder.decode_frame (env : DecodeEnv) (d : VDecoder) (timestamp_ms : ℤ) :
    Except String DecodeResult × VDecoder :=
  if d.state = DecoderState.Error then (.ok (lastResult d), d)
  else
    match d.eof_timestamp_ms with
    | some eof_ts =>
      if eof_ts ≤ timestamp_ms then (.ok (lastResult d), d)
      else decode_frame_core env { d with eof_timestamp_ms := Option.none } timestamp_ms
    | Option.none => decode_frame_core env d timestamp_ms

theorem decode_frame_scan_eof (env : DecodeEnv) (d : VDecoder) (t : ℤ) :
    (decode_frame_core.decode_frame_scan env d t).2.eof_timestamp_ms
        = d.eof_timestamp_ms ∨
    (decode_frame_core.decode_frame_scan env d t).2.eof_timestamp_ms = some t := by
  unfold decode_frame_core.decode_frame_scan
  cases hscan : env.scan t with
  | found raw => cases hcv : env.convert raw t <;> simp [hcv]
  | skipped => simp
  | eofSeen raw => cases hcv : env.convert raw t <;> simp [hcv]
  | eofNone => simp

theorem seek_eof_none (env : DecodeEnv) (d : VDecoder) (t : ℤ)
    (h : d.eof_timestamp_ms = Option.none) :
    (d.seek env t).1.eof_timestamp_ms = Option.none := by
  unfold VDecoder.seek
  by_cases h1 : env.containerSeek 1 (t * 1000)
  · rw [if_pos h1]
  · rw [if_neg h1]
    by_cases h2 : env.containerSeek 2 (t * 1000)
    · rw [if_pos h2]
      exact h
    · rw [if_neg h2]
      exact h

theorem decode_frame_core_eof (env : DecodeEnv) (d : VDecoder) (t : ℤ)
    (h : d.eof_timestamp_ms = Option.none) :
    (decode_frame_core env d t).2.eof_timestamp_ms = Option.none ∨
    (decode_frame_core env d t).2.eof_timestamp_ms = some t := by
  unfold decode_frame_core
  dsimp only
  split
  · cases hsk : d.seek env t with
    | mk d2 b =>
      have hd2eof : d2.eof_timestamp_ms = Option.none := by
        have := seek_eof_none env d t h
        rw [hsk] at this
        exact this
      cases b
      · dsimp only
        left
        exact hd2eof
      · dsimp only
        rcases decode_frame_scan_eof env
            { d2 with last_timestamp_ms := t } t with h3 | h3
        · left
          rw [h3]
          exact hd2eof
        · right
          exact h3
  · rcases decode_frame_scan_eof env { d with last_timestamp_ms := t } t with h3 | h3
    · left
      rw [h3]
      exact h
    · right
      exact h3

/-- C3 (confirmed): once `decode_frame` has recorded an EOF at timestamp
`e`, every call at `t ≥ e` returns the same last decoded frame (or
`EndOfStreamEmpty` when none exists) with the decoder unchanged and the
result independent of the container environment — no packet scan; a call
strictly before `e` (in the recorded-EOF state) clears the cached marker,
leaving either no marker or a freshly recorded one at the new timestamp;
and a successful `seek` restores the `Ready` state. -/
theorem C3_eof_idempotence :
    (∀ (env : DecodeEnv) (d : VDecoder) (t e : ℤ),
      d.eof_timestamp_ms = some e → e ≤ t →
      VDecoder.decode_frame env d t = (.ok (lastResult d), d)) ∧
    (∀ (env : DecodeEnv) (d : VDecoder) (t e : ℤ),
      d.eof_timestamp_ms = some e → t < e → d.state = DecoderState.EndOfStream →
      ((VDecoder.decode_frame env d t).2.eof_timestamp_ms = Option.none ∨
        (VDecoder.decode_frame env d t).2.eof_timestamp_ms = some t)) ∧
    (∀ (env : DecodeEnv) (d d2 : VDecoder) (t : ℤ),
      d.seek env t = (d2, true) → d2.state = DecoderState.Ready) := by
  refine ⟨?_, ?_, ?_⟩
  · intro env d t e he hle
    unfold VDecoder.decode_frame
    by_cases hs : d.state = DecoderState.Error
    · rw [if_pos hs]
    · rw [if_neg hs, he]
      dsimp only
      rw [if_pos hle]
  · intro env d t e he hlt hs
    unfold VDecoder.decode_frame
    rw [if_neg (by rw [hs]; exact fun hcontra => DecoderState.noConfusion hcontra), he]
    dsimp only
    rw [if_neg (by omega)]
    exact decode_frame_core_eof env { d with eof_timestamp_ms := Option.none } t rfl
  · intro env d d2 t hseek
    unfold VDecoder.seek at hseek
    by_cases h1 : env.containerSeek 1 (t * 1000)
    · rw [if_pos h1] at hseek
      have hd2 : ({ d with
          state := DecoderState.Ready
          eof_timestamp_ms := Option.none } : VDecoder) = d2 :=
        congrArg Prod.fst hseek
      rw [← hd2]
    · rw [if_neg h1] at hseek
      by_cases h2 : env.containerSeek 2 (t * 1000)
      · rw [if_pos h2] at hseek
        have hd2 : ({ d with state := DecoderState.Ready } : VDecoder) = d2 :=
          congrArg Prod.fst hseek
        rw [← hd2]
      · rw [if_neg h2] at hseek
        have hfb : False := by
          have := congrArg Prod.snd hseek
          simp at this
        exact absurd hfb (by simp)

/-- A fixed small frame used by the decoder witnesses. -/
def frameA : Frame := ⟨2, 2, PixelFormat.RGBA, [1, 2, 3, 255], 0⟩

/-- A decoder that has recorded an EOF at timestamp 100 with `frameA` as
its last decoded frame. -/
def decoderAtEof : VDecoder :=
  ⟨DecoderState.EndOfStream, some frameA, some 100, 100, 100, 30⟩

/-- A benign environment: seeks always succeed, scans always hit EOF with
nothing seen, conversion echoes the raw payload. -/
def envAlwaysEof : DecodeEnv :=
  ⟨fun _ _ => true, fun _ => ScanResult.eofNone,
   fun r t => .ok ⟨2, 2, PixelFormat.RGBA, r.payload, t⟩⟩

/-- C3 witness: past the recorded EOF the same frame comes back and the
state is untouched; a backward request clears the marker; a successful
seek restores `Ready`. -/
theorem C3_witness :
    VDecoder.decode_frame envAlwaysEof decoderAtEof 150
        = (.ok (DecodeResult.EndOfStream frameA), decoderAtEof) ∧
      ((VDecoder.decode_frame envAlwaysEof decoderAtEof 50).2.eof_timestamp_ms
          = Option.none ∨
        (VDecoder.decode_frame envAlwaysEof decoderAtEof 50).2.eof_timestamp_ms
          = some 50) ∧
      ((decoderAtEof.seek envAlwaysEof 0).1.state = DecoderState.Ready) := by
  refine ⟨?_, ?_, ?_⟩
  · exact C3_eof_idempotence.1 envAlwaysEof decoderAtEof 150 100 rfl (by norm_num)
  · exact C3_eof_idempotence.2.1 envAlwaysEof decoderAtEof 50 100 rfl (by norm_num) rfl
  · exact C3_eof_idempotence.2.2 envAlwaysEof decoderAtEof
      (decoderAtEof.seek envAlwaysEof 0).1 0 rfl

/-- An environment whose container seek fails on the first attempt and
succeeds on the retry. -/
def envRetrySeek : DecodeEnv :=
  ⟨fun attempt _ => attempt != 1, fun _ => ScanResult.eofNone,
   fun r t => .ok ⟨2, 2, PixelFormat.RGBA, r.payload, t⟩⟩

/-- C4 (counterexample): a seek whose first attempt fails and whose
single retry succeeds returns success and restores `Ready` — but leaves
the cached EOF marker (timestamp 100) in place, contradicting the claim
that a successful seek clears the cached EOF marker. -/
theorem C4_counterexample :
    (decoderAtEof.seek envRetrySeek 50).2 = true ∧
      (decoderAtEof.seek envRetrySeek 50).1.state = DecoderState.Ready ∧
      (decoderAtEof.seek envRetrySeek 50).1.eof_timestamp_ms = some 100 := by
  refine ⟨rfl, rfl, rfl⟩

/-- C4 (amended): `seek` consults the container only at
`timestamp_ms × 1000` microseconds (the container's universal time base);
a first-attempt success flushes, sets `Ready` and clears the cached EOF
marker; on a first failure it flushes and retries exactly once — a retry
success sets `Ready` and reports success but does not clear the cached
EOF marker; only a second failure transitions the decoder to `Error` and
returns an error. -/
theorem C4_seek_behavior (env : DecodeEnv) (d : VDecoder) (t : ℤ) :
    (env.containerSeek 1 (t * 1000) = true →
      d.seek env t = ({ d with
        state := DecoderState.Ready
        eof_timestamp_ms := Option.none }, true)) ∧
    (env.containerSeek 1 (t * 1000) = false → env.containerSeek 2 (t * 1000) = true →
      d.seek env t = ({ d with state := DecoderState.Ready }, true)) ∧
    (env.containerSeek 1 (t * 1000) = false → env.containerSeek 2 (t * 1000) = false →
      d.seek env t = ({ d with state := DecoderState.Error }, false)) := by
  refine ⟨?_, ?_, ?_⟩
  · intro h1
    unfold VDecoder.seek
    rw [if_pos h1]
  · intro h1 h2
    unfold VDecoder.seek
    rw [if_neg (by rw [h1]; exact Bool.false_ne_true), if_pos h2]
  · intro h1 h2
    unfold VDecoder.seek
    rw [if_neg (by rw [h1]; exact Bool.false_ne_true),
      if_neg (by rw [h2]; exact Bool.false_ne_true)]

/-- C4 witness: a first-attempt success at `t = 7` — the container is
asked for 7000 µs, the state returns to `Ready` and the marker clears. -/
theorem C4_witness :
    decoderAtEof.seek envAlwaysEof 7
      = ({ decoderAtEof with
          state := DecoderState.Ready
          eof_timestamp_ms := Option.none }, true) :=
  (C4_seek_behavior envAlwaysEof decoderAtEof 7).1 rfl

/-! ## PlaybackEngine fill loop (src/rust-engine/src/rendering/playback_engine.rs)

One iteration of `fill_loop`'s render/retry/push segment, with the
renderer behind an environment (`render : timestamp ↦ result`).  The
returned list is what gets pushed to the `FrameQueue` this iteration, and
the returned integer is the updated `next_ms` prefetch position. -/

/-- Environment for the fill loop: the dedicated renderer. -/
structure PEnv where
  render : ℤ → Except String RenderedFrame

/-- The black-frame artifact test: at least four data bytes and the byte
at index 3 (the first pixel's alpha) equal to `0x00`. -/
def isBlackFrame (f : RenderedFrame) : Prop :=
  4 ≤ f.data.length ∧ f.data.getD 3 0 = 0

instance (f : RenderedFrame) : Decidable (isBlackFrame f) := by
  unfold isBlackFrame
  infer_instance

/-- The retry loop after a black frame: try `next_ms + offset × 33` for
`offset = 1..5`; the first frame with at least four bytes and a nonzero
alpha byte is returned together with its retry timestamp; render errors
and still-black frames just advance to the next offset. -/
def retrySearch (env : PEnv) (next_ms : ℤ) : ℕ → ℕ → Option (RenderedFrame × ℤ)
  | _, 0 => Option.none
  | offset, fuel + 1 =>
    match env.render (next_ms + offset * 33) with
    | .ok g =>
      if 4 ≤ g.data.length ∧ g.data.getD 3 0 ≠ 0 then
        some (g, next_ms + offset * 33)
      else retrySearch env next_ms (offset + 1) fuel
    | .error _ => retrySearch env next_ms (offset + 1) fuel

/-- One iteration of the fill loop's render segment: render at `next_ms`;
on error advance by 33 ms pushing nothing; on a black frame run the retry
loop, pushing the first good retry frame and continuing 33 ms after it,
or — if all 5 retries fail — advance by 200 ms pushing nothing; otherwise
push the frame and advance by 33 ms. -/
def fillStep (env : PEnv) (next_ms : ℤ) : List RenderedFrame × ℤ :=
  match env.render next_ms with
  | .error _ => ([], next_ms + 33)
  | .ok frame =>
    if 4 ≤ frame.data.length ∧ frame.data.getD 3 0 = 0 then
      match retrySearch env next_ms 1 5 with
      | some (g, retry_ms) => ([g], retry_ms + 33)
      | Option.none => ([], next_ms + 200)
    else ([frame], next_ms + 33)

/-- A render outcome counts as "good" when it is a frame with at least
four bytes and a nonzero alpha byte. -/
def goodOutcome (env : PEnv) (t : ℤ) : Option RenderedFrame :=
  match env.render t with
  | .ok g => if 4 ≤ g.data.length ∧ g.data.getD 3 0 ≠ 0 then some g else Option.none
  | .error _ => Option.none

theorem retrySearch_zero (env : PEnv) (next_ms : ℤ) (offset : ℕ) :
    retrySearch env next_ms offset 0 = Option.none := rfl

theorem retrySearch_step (env : PEnv) (next_ms : ℤ) (offset fuel : ℕ) :
    retrySearch env next_ms offset (fuel + 1) =
      match env.render (next_ms + offset * 33) with
      | .ok g =>
        if 4 ≤ g.data.length ∧ g.data.getD 3 0 ≠ 0 then
          some (g, next_ms + offset * 33)
        else retrySearch env next_ms (offset + 1) fuel
      | .error _ => retrySearch env next_ms (offset + 1) fuel := rfl

theorem retrySearch_ok (env : PEnv) (next_ms : ℤ) (offset fuel : ℕ) (g : RenderedFrame)
    (h : goodOutcome env (next_ms + offset * 33) = some g) :
    retrySearch env next_ms offset (fuel + 1) = some (g, next_ms + offset * 33) := by
  unfold goodOutcome at h
  rw [retrySearch_step]
  cases hr : env.render (next_ms + offset * 33) with
  | ok g2 =>
    rw [hr] at h
    have h2 : (if 4 ≤ g2.data.length ∧ g2.data.getD 3 0 ≠ 0 then some g2
        else (Option.none : Option RenderedFrame)) = some g := h
    show (if 4 ≤ g2.data.length ∧ g2.data.getD 3 0 ≠ 0 then
        some (g2, next_ms + (offset : ℤ) * 33)
      else retrySearch env next_ms (offset + 1) fuel) = _
    by_cases hgood : 4 ≤ g2.data.length ∧ g2.data.getD 3 0 ≠ 0
    · rw [if_pos hgood] at h2
      rw [if_pos hgood, Option.some.inj h2]
    · rw [if_neg hgood] at h2
      exact absurd h2 (by simp)
  | error e =>
    rw [hr] at h
    have h2 : (Option.none : Option RenderedFrame) = some g := h
    exact absurd h2 (by simp)

theorem retrySearch_bad (env : PEnv) (next_ms : ℤ) (offset fuel : ℕ)
    (h : goodOutcome env (next_ms + offset * 33) = Option.none) :
    retrySearch env next_ms offset (fuel + 1)
      = retrySearch env next_ms (offset + 1) fuel := by
  unfold goodOutcome at h
  rw [retrySearch_step]
  cases hr : env.render (next_ms + offset * 33) with
  | ok g2 =>
    rw [hr] at h
    have h2 : (if 4 ≤ g2.data.length ∧ g2.data.getD 3 0 ≠ 0 then some g2
        else (Option.none : Option RenderedFrame)) = Option.none := h
    show (if 4 ≤ g2.data.length ∧ g2.data.getD 3 0 ≠ 0 then
        some (g2, next_ms + (offset : ℤ) * 33)
      else retrySearch env next_ms (offset + 1) fuel) = _
    by_cases hgood : 4 ≤ g2.data.length ∧ g2.data.getD 3 0 ≠ 0
    · rw [if_pos hgood] at h2
      exact absurd h2 (by simp)
    · rw [if_neg hgood]
  | error e =>
    show retrySearch env next_ms (offset + 1) fuel = retrySearch env next_ms (offset + 1) fuel
    rfl

/-- Any frame returned by the retry loop has a nonzero alpha byte, hence
is not a black frame. -/
theorem retrySearch_notBlack (env : PEnv) (next_ms : ℤ) (fuel : ℕ) :
    ∀ (offset : ℕ) (g : RenderedFrame) (ret : ℤ),
      retrySearch env next_ms offset fuel = some (g, ret) → ¬isBlackFrame g := by
  induction fuel with
  | zero =>
    intro offset g ret h
    rw [retrySearch_zero] at h
    exact absurd h (by simp)
  | succ n ih =>
    intro offset g ret h
    rw [retrySearch_step] at h
    cases hr : env.render (next_ms + offset * 33) with
    | ok g2 =>
      rw [hr] at h
      have h2 : (if 4 ≤ g2.data.length ∧ g2.data.getD 3 0 ≠ 0 then
          some (g2, next_ms + (offset : ℤ) * 33)
        else retrySearch env next_ms (offset + 1) n) = some (g, ret) := h
      by_cases hgood : 4 ≤ g2.data.length ∧ g2.data.getD 3 0 ≠ 0
      · rw [if_pos hgood] at h2
        have hg : g2 = g := congrArg Prod.fst (Option.some.inj h2)
        subst hg
        exact fun hb => hgood.2 hb.2
      · rw [if_neg hgood] at h2
        exact ih (offset + 1) g ret h2
    | error e =>
      rw [hr] at h
      have h2 : retrySearch env next_ms (offset + 1) n = some (g, ret) := h
      exact ih (offset + 1) g ret h2

/-- If offsets `1..k-1` are bad and offset `k ≤ 5` is the first good one,
the retry loop returns that frame at `next_ms + k * 33`. -/
theorem retrySearch_first (env : PEnv) (next_ms : ℤ) (g : RenderedFrame) (k : ℕ)
    (hk1 : 1 ≤ k) (hk5 : k ≤ 5)
    (hbad : ∀ j : ℕ, 1 ≤ j → j < k → goodOutcome env (next_ms + j * 33) = Option.none)
    (hgood : goodOutcome env (next_ms + k * 33) = some g) :
    retrySearch env next_ms 1 5 = some (g, next_ms + k * 33) := by
  interval_cases k
  · exact retrySearch_ok env next_ms 1 4 g hgood
  · have h1 : retrySearch env next_ms 1 5 = retrySearch env next_ms 2 4 :=
      retrySearch_bad env next_ms 1 4 (hbad 1 (by norm_num) (by norm_num))
    rw [h1]
    exact retrySearch_ok env next_ms 2 3 g hgood
  · have h1 : retrySearch env next_ms 1 5 = retrySearch env next_ms 2 4 :=
      retrySearch_bad env next_ms 1 4 (hbad 1 (by norm_num) (by norm_num))
    have h2 : retrySearch env next_ms 2 4 = retrySearch env next_ms 3 3 :=
      retrySearch_bad env next_ms 2 3 (hbad 2 (by norm_num) (by norm_num))
    rw [h1, h2]
    exact retrySearch_ok env next_ms 3 2 g hgood
  · have h1 : retrySearch env next_ms 1 5 = retrySearch env next_ms 2 4 :=
      retrySearch_bad env next_ms 1 4 (hbad 1 (by norm_num) (by norm_num))
    have h2 : retrySearch env next_ms 2 4 = retrySearch env next_ms 3 3 :=
      retrySearch_bad env next_ms 2 3 (hbad 2 (by norm_num) (by norm_num))
    have h3 : retrySearch env next_ms 3 3 = retrySearch env next_ms 4 2 :=
      retrySearch_bad env next_ms 3 2 (hbad 3 (by norm_num) (by norm_num))
    rw [h1, h2, h3]
    exact retrySearch_ok env next_ms 4 1 g hgood
  · have h1 : retrySearch env next_ms 1 5 = retrySearch env next_ms 2 4 :=
      retrySearch_bad env next_ms 1 4 (hbad 1 (by norm_num) (by norm_num))
    have h2 : retrySearch env next_ms 2 4 = retrySearch env next_ms 3 3 :=
      retrySearch_bad env next_ms 2 3 (hbad 2 (by norm_num) (by norm_num))
    have h3 : retrySearch env next_ms 3 3 = retrySearch env next_ms 4 2 :=
      retrySearch_bad env next_ms 3 2 (hbad 3 (by norm_num) (by norm_num))
    have h4 : retrySearch env next_ms 4 2 = retrySearch env next_ms 5 1 :=
      retrySearch_bad env next_ms 4 1 (hbad 4 (by norm_num) (by norm_num))
    rw [h1, h2, h3, h4]
    exact retrySearch_ok env next_ms 5 0 g hgood

/-- If every offset `1..5` is bad, the retry loop returns nothing. -/
theorem retrySearch_exhaust (env : PEnv) (next_ms : ℤ)
    (hbad : ∀ j : ℕ, 1 ≤ j → j ≤ 5 → goodOutcome env (next_ms + j * 33) = Option.none) :
    retrySearch env next_ms 1 5 = Option.none := by
  have h1 : retrySearch env next_ms 1 5 = retrySearch env next_ms 2 4 :=
    retrySearch_bad env next_ms 1 4 (hbad 1 (by norm_num) (by norm_num))
  have h2 : retrySearch env next_ms 2 4 = retrySearch env next_ms 3 3 :=
    retrySearch_bad env next_ms 2 3 (hbad 2 (by norm_num) (by norm_num))
  have h3 : retrySearch env next_ms 3 3 = retrySearch env next_ms 4 2 :=
    retrySearch_bad env next_ms 3 2 (hbad 3 (by norm_num) (by norm_num))
  have h4 : retrySearch env next_ms 4 2 = retrySearch env next_ms 5 1 :=
    retrySearch_bad env next_ms 4 1 (hbad 4 (by norm_num) (by norm_num))
  have h5 : retrySearch env next_ms 5 1 = retrySearch env next_ms 6 0 :=
    retrySearch_bad env next_ms 5 0 (hbad 5 (by norm_num) (by norm_num))
  rw [h1, h2, h3, h4, h5, retrySearch_zero]

/-- C9 (confirmed): the fill loop never pushes a frame whose byte at
index 3 is 0x00; after a black render it retries at `+33 ms` increments
and pushes exactly the first retry frame with a nonzero alpha byte,
resuming 33 ms after it; and when the original render succeeds as a black
frame and all five retries are black (or fail), it pushes nothing for
that position and advances the prefetch position by 200 ms from the
original timestamp. -/
theorem C9_black_frame_policy :
    (∀ (env : PEnv) (next_ms : ℤ) (f : RenderedFrame),
      f ∈ (fillStep env next_ms).1 → ¬isBlackFrame f) ∧
    (∀ (env : PEnv) (next_ms : ℤ) (f g : RenderedFrame) (k : ℕ),
      env.render next_ms = .ok f → isBlackFrame f →
      1 ≤ k → k ≤ 5 →
      (∀ j : ℕ, 1 ≤ j → j < k → goodOutcome env (next_ms + j * 33) = Option.none) →
      goodOutcome env (next_ms + k * 33) = some g →
      fillStep env next_ms = ([g], next_ms + k * 33 + 33)) ∧
    (∀ (env : PEnv) (next_ms : ℤ) (f : RenderedFrame),
      env.render next_ms = .ok f → isBlackFrame f →
      (∀ j : ℕ, 1 ≤ j → j ≤ 5 → goodOutcome env (next_ms + j * 33) = Option.none) →
      fillStep env next_ms = ([], next_ms + 200)) := by
  refine ⟨?_, ?_, ?_⟩
  · intro env next_ms f hf
    unfold fillStep at hf
    cases hr : env.render next_ms with
    | error e =>
      rw [hr] at hf
      have hf2 : f ∈ (([] : List RenderedFrame), next_ms + 33).1 := hf
      simp at hf2
    | ok frame =>
      rw [hr] at hf
      have hf2 : f ∈ (if 4 ≤ frame.data.length ∧ frame.data.getD 3 0 = 0 then
          match retrySearch env next_ms 1 5 with
          | some (g2, retry_ms) => ([g2], retry_ms + 33)
          | Option.none => ([], next_ms + 200)
        else ([frame], next_ms + 33)).1 := hf
      by_cases hblack : 4 ≤ frame.data.length ∧ frame.data.getD 3 0 = 0
      · rw [if_pos hblack] at hf2
        cases hs : retrySearch env next_ms 1 5 with
        | none =>
          rw [hs] at hf2
          have hf3 : f ∈ (([] : List RenderedFrame), next_ms + 200).1 := hf2
          simp at hf3
        | some pr =>
          obtain ⟨g, ret⟩ := pr
          rw [hs] at hf2
          have hf3 : f ∈ ([g], ret + 33).1 := hf2
          have hfg : f = g := by simpa using hf3
          subst hfg
          exact retrySearch_notBlack env next_ms 5 1 f ret hs
      · rw [if_neg hblack] at hf2
        have hf3 : f ∈ ([frame], next_ms + 33).1 := hf2
        have hff : f = frame := by simpa using hf3
        subst hff
        exact fun hcontra => hblack hcontra
  · intro env next_ms f g k hr hblack hk1 hk5 hbad hgood
    have hb : 4 ≤ f.data.length ∧ f.data.getD 3 0 = 0 := hblack
    unfold fillStep
    rw [hr]
    show (if 4 ≤ f.data.length ∧ f.data.getD 3 0 = 0 then
        match retrySearch env next_ms 1 5 with
        | some (g2, retry_ms) => ([g2], retry_ms + 33)
        | Option.none => ([], next_ms + 200)
      else ([f], next_ms + 33)) = _
    rw [if_pos hb, retrySearch_first env next_ms g k hk1 hk5 hbad hgood]
  · intro env next_ms f hr hblack hbad
    have hb : 4 ≤ f.data.length ∧ f.data.getD 3 0 = 0 := hblack
    unfold fillStep
    rw [hr]
    show (if 4 ≤ f.data.length ∧ f.data.getD 3 0 = 0 then
        match retrySearch env next_ms 1 5 with
        | some (g2, retry_ms) => ([g2], retry_ms + 33)
        | Option.none => ([], next_ms + 200)
      else ([f], next_ms + 33)) = _
    rw [if_pos hb, retrySearch_exhaust env next_ms hbad]

/-- A black test frame (alpha byte 0). -/
def blackFrame0 : RenderedFrame := ⟨1, 1, [5, 5, 5, 0], 0, false⟩

/-- A good test frame (alpha byte 255). -/
def goodFrame0 : RenderedFrame := ⟨1, 1, [7, 7, 7, 255], 0, false⟩

/-- A test renderer that yields the black frame at 0 ms and a good frame
everywhere else. -/
def pEnv0 : PEnv := ⟨fun t => if t = 0 then .ok blackFrame0 else .ok goodFrame0⟩

/-- C9 witness: with `pEnv0`, the fill step at 0 ms pushes the first
retry frame (offset 1) and resumes at 66 ms. -/
theorem C9_witness :
    fillStep pEnv0 0 = ([goodFrame0], 0 + 1 * 33 + 33) :=
  C9_black_frame_policy.2.1 pEnv0 0 blackFrame0 goodFrame0 1
    (by rfl) (by decide) (by norm_num) (by norm_num)
    (fun j hj1 hj2 => absurd hj2 (by omega))
    (by rfl)

/-! ## Preview renderer (src/rust-engine/src/rendering/renderer.rs)

`render_frame` composed with the timeline query (`timeline/track.rs`) and
the decoder cache.  External machinery — filesystem existence of proxies,
`Decoder::open`/`open_for_export`, the per-file container behaviour, the
YUV↔RGBA conversions, the colour-effect pixel kernel, and wall-clock
elapsed time — is abstracted into an environment `REnv`.  The `Timeline`
model keeps only the fields the renderer reads (the audio tracks and id
counters play no role in `render_frame`); the diagnostic counters, which
nothing else reads, are omitted from the `Renderer` state.  The clip
type itself lives in `timeline/clip.rs`, which is not among the provided
sources, and is modelled from the spec.  The Rust source returns early
out of one long function body; it is embedded here as one definition per
early-return point, sequenced in source order. -/

/-- Modelled from the spec: `VideoClip` — identifier, media path,
optional proxy path, placement `[start_time_ms, start_time_ms +
duration_ms)`, source trim, playback speed, volume, transition tag
(`timeline/clip.rs` is not among the provided sources). -/
structure VideoClip where
  id : ℕ
  file_path : String
  proxy_path : Option String
  start_time_ms : ℤ
  duration_ms : ℤ
  trim_start_ms : ℤ
  trim_end_ms : ℤ
  speed : ℚ
  volume : ℚ
  transition_type : TransitionType
  deriving DecidableEq, Repr

/-- Modelled from the spec: the clip ends at `start_time_ms +
duration_ms`. -/
def VideoClip.end_time_ms (c : VideoClip) : ℤ :=
  c.start_time_ms + c.duration_ms

/-- Modelled from the spec: the placement range is half-open. -/
def VideoClip.contains_time (c : VideoClip) (time_ms : ℤ) : Prop :=
  c.start_time_ms ≤ time_ms ∧ time_ms < c.end_time_ms

instance (c : VideoClip) (t : ℤ) : Decidable (c.contains_time t) := by
  unfold VideoClip.contains_time
  infer_instance

/-- Modelled from the spec: timeline→source mapping
`trim_start_ms + (t - start_time_ms) * speed` (the `f64` product cast
back to `i64` as truncation), defined on the clip's placement range. -/
def VideoClip.timeline_to_source_time (c : VideoClip) (timeline_ms : ℤ) : Option ℤ :=
  if c.contains_time timeline_ms then
    some (c.trim_start_ms + ratTrunc (((timeline_ms - c.start_time_ms : ℤ) : ℚ) * c.speed))
  else Option.none

/-- `TransitionInfo` (timeline/track.rs). -/
structure TransitionInfo where
  outgoing : VideoClip
  incoming : VideoClip
  progress : ℚ
  transition_type : TransitionType
  deriving DecidableEq, Repr

/-- `VideoTrack` (timeline/track.rs). -/
structure VideoTrack where
  id : ℕ
  index : ℕ
  clips : List VideoClip
  enabled : Bool
  muted : Bool
  deriving DecidableEq, Repr

/-- `VideoTrack::get_clip_at_time`: first clip containing the time, on an
enabled, unmuted track. -/
def VideoTrack.get_clip_at_time (tr : VideoTrack) (time_ms : ℤ) : Option VideoClip :=
  if tr.enabled = false ∨ tr.muted = true then Option.none
  else tr.clips.find? (fun c => decide (c.contains_time time_ms))

/-- `VideoTrack::get_transition_at_time`: two clips of an enabled track
overlap at the time; progress is the clamped position inside
`[incoming.start, outgoing.end)`; a `None` tag on the incoming clip
defaults to crossfade. -/
def VideoTrack.get_transition_at_time (tr : VideoTrack) (time_ms : ℤ) :
    Option TransitionInfo :=
  if tr.enabled = false then Option.none
  else
    match tr.clips.filter (fun c => decide (c.contains_time time_ms)) with
    | outgoing :: incoming :: _ =>
      if outgoing.end_time_ms - incoming.start_time_ms ≤ 0 then Option.none
      else
        some ⟨outgoing, incoming,
          min (max (((time_ms - incoming.start_time_ms : ℤ) : ℚ)
            / ((outgoing.end_time_ms - incoming.start_time_ms : ℤ) : ℚ)) 0) 1,
          if incoming.transition_type = TransitionType.none then TransitionType.crossfade
          else incoming.transition_type⟩
    | _ => Option.none

/-- `Timeline` (timeline/timeline.rs), restricted to the fields
`render_frame` reads. -/
structure Timeline where
  width : ℕ
  height : ℕ
  fps : ℚ
  video_tracks : List VideoTrack
  deriving DecidableEq, Repr

/-- Modelled from the spec: colour-effect parameters, each `0.0` at
identity (the effects module is not among the provided sources). -/
structure EffectParams where
  brightness : ℚ
  contrast : ℚ
  saturation : ℚ
  temperature : ℚ
  deriving DecidableEq, Repr

/-- Modelled from the spec: "default" means all four parameters are
exactly zero. -/
def EffectParams.is_default (p : EffectParams) : Prop :=
  p.brightness = 0 ∧ p.contrast = 0 ∧ p.saturation = 0 ∧ p.temperature = 0

instance (p : EffectParams) : Decidable p.is_default := by
  unfold EffectParams.is_default
  infer_instance

/-- Environment of the renderer: `try_lock` outcome, proxy-file
existence, decoder construction, per-file container behaviour, the pixel
conversions and effect kernel, and the elapsed-time reading. -/
structure REnv where
  tryLockOk : Bool
  proxyExists : String → Bool
  openDecoder : String → Except String VDecoder
  openForExport : String → ℕ → ℕ → Except String VDecoder
  denv : String → DecodeEnv
  yuv420p_to_rgba : List ℕ → ℕ → ℕ → List ℕ
  rgba_to_yuv420p : List ℕ → ℕ → ℕ → List ℕ
  apply_effects : List ℕ → ℕ → ℕ → EffectParams → List ℕ
  elapsed_ms : ℕ

/-- `Renderer` state (the fields `render_frame` reads and writes; the
decoder `HashMap` is modelled as an association list). -/
structure Renderer where
  timeline : Timeline
  decoder_cache : List (String × VDecoder)
  frame_cache : FrameCache
  last_rendered_frame : Option RenderedFrame
  playback_mode : Bool
  export_resolution : Option (ℕ × ℕ)
  clip_effects : List (ℕ × EffectParams)
  last_render_elapsed_ms : ℕ

/-- `black_frame_with_size`: zeroed RGBA. -/
def black_frame_with_size (width height : ℕ) (timestamp_ms : ℤ) : RenderedFrame :=
  ⟨width, height, List.replicate (width * height * 4) 0, timestamp_ms, false⟩

/-- `black_frame`: the preview 960×540 black frame. -/
def black_frame (timestamp_ms : ℤ) : RenderedFrame :=
  black_frame_with_size 960 540 timestamp_ms

/-- `black_frame_yuv`: Y plane 0, U and V planes 128. -/
def black_frame_yuv (width height : ℕ) (timestamp_ms : ℤ) : RenderedFrame :=
  ⟨width, height,
    List.replicate (width * height) 0
      ++ List.replicate ((width / 2) * (height / 2) * 2) 128,
    timestamp_ms, true⟩

/-- The black frame matching the output mode (`export_resolution`). -/
def black_for_mode (r : Renderer) (timestamp_ms : ℤ) : RenderedFrame :=
  match r.export_resolution with
  | some (w, h) => black_frame_yuv w h timestamp_ms
  | Option.none => black_frame timestamp_ms

/-- The recurring `last_rendered_frame.clone().unwrap_or_else(black…)`
fallback of `render_frame`. -/
def fallback_frame (r : Renderer) (timestamp_ms : ℤ) : RenderedFrame :=
  match r.last_rendered_frame with
  | some f => f
  | Option.none => black_for_mode r timestamp_ms

/-- `video_path_for_decode`: export always decodes the original; preview
prefers an existing proxy. -/
def video_path_for_decode (env : REnv) (r : Renderer) (clip : VideoClip) : String :=
  match r.export_resolution with
  | some _ => clip.file_path
  | Option.none =>
    match clip.proxy_path with
    | some proxy => if env.proxyExists proxy = true then proxy else clip.file_path
    | Option.none => clip.file_path

/-- Association-list lookup of the decoder cache. -/
def lookupDecoder : List (String × VDecoder) → String → Option VDecoder
  | [], _ => Option.none
  | e :: rest, k => if e.1 = k then some e.2 else lookupDecoder rest k

/-- `HashMap::remove` on the decoder cache. -/
def removeDecoder (cache : List (String × VDecoder)) (k : String) :
    List (String × VDecoder) :=
  cache.filter (fun e => decide (e.1 ≠ k))

/-- `HashMap::insert` on the decoder cache (replacement semantics). -/
def insertDecoder (cache : List (String × VDecoder)) (k : String) (d : VDecoder) :
    List (String × VDecoder) :=
  removeDecoder cache k ++ [(k, d)]

/-- Association-list lookup of the clip-effects map. -/
def lookupEffect : List (ℕ × EffectParams) → ℕ → Option EffectParams
  | [], _ => Option.none
  | e :: rest, k => if e.1 = k then some e.2 else lookupEffect rest k

/-- `Decoder::open` or `Decoder::open_for_export` by output mode. -/
def openForMode (env : REnv) (export_resolution : Option (ℕ × ℕ)) (path : String) :
    Except String VDecoder :=
  match export_resolution with
  | some (w, h) => env.openForExport path w h
  | Option.none => env.openDecoder path

/-- Step 1 of `decode_clip_frame`: drop a cached decoder stuck in the
`Error` state. -/
def dcfCache0 (r : Renderer) (file_path : String) : List (String × VDecoder) :=
  match lookupDecoder r.decoder_cache file_path with
  | some d =>
    if d.state = DecoderState.Error then removeDecoder r.decoder_cache file_path
    else r.decoder_cache
  | Option.none => r.decoder_cache

/-- The forward threshold applied to newly created decoders. -/
def dcfThreshold (r : Renderer) : ℤ :=
  if r.playback_mode = true then 5000 else 100

/-- The retry after a decode error: the decoder was removed and a fresh
one inserted; look it up and decode once more, surfacing its result. -/
def dcfRetry (env : REnv) (r : Renderer) (file_path : String) (source_time_ms : ℤ)
    (cache : List (String × VDecoder)) : Except String DecodeResult × Renderer :=
  match lookupDecoder cache file_path with
  | Option.none =>
    (.error "Decoder not found after recreate", { r with decoder_cache := cache })
  | some d3 =>
    match VDecoder.decode_frame (env.denv file_path) d3 source_time_ms with
    | (res, d4) => (res, { r with decoder_cache := insertDecoder cache file_path d4 })

/-- The decode step of `decode_clip_frame`: decode with the cached
decoder; on an error, drop it and recreate (a recreation failure is the
`Decoder recreate failed` error), then decode once more. -/
def dcfDecode (env : REnv) (r : Renderer) (file_path : String) (source_time_ms : ℤ)
    (cache : List (String × VDecoder)) : Except String DecodeResult × Renderer :=
  match lookupDecoder cache file_path with
  | Option.none => (.error "Decoder not found in cache", { r with decoder_cache := cache })
  | some d =>
    match VDecoder.decode_frame (env.denv file_path) d source_time_ms with
    | (.ok res, d2) =>
      (.ok res, { r with decoder_cache := insertDecoder cache file_path d2 })
    | (.error _, _) =>
      match openForMode env r.export_resolution file_path with
      | .error e2 =>
        (.error ("Decoder recreate failed: " ++ e2),
         { r with decoder_cache := removeDecoder cache file_path })
      | .ok nd =>
        dcfRetry env r file_path source_time_ms
          (insertDecoder (removeDecoder cache file_path) file_path
            { nd with forward_threshold_ms := dcfThreshold r })

/-- `decode_clip_frame`: drop an `Error`-state decoder, create one if the
path has none (propagating open failures), then decode with the
error-recreate-retry policy. -/
def decode_clip_frame (env : REnv) (r : Renderer) (clip : VideoClip)
    (source_time_ms : ℤ) : Except String DecodeResult × Renderer :=
  match lookupDecoder (dcfCache0 r (video_path_for_decode env r clip))
      (video_path_for_decode env r clip) with
  | Option.none =>
    match openForMode env r.export_resolution (video_path_for_decode env r clip) with
    | .error e =>
      (.error e, { r with decoder_cache := dcfCache0 r (video_path_for_decode env r clip) })
    | .ok d0 =>
      dcfDecode env r (video_path_for_decode env r clip) source_time_ms
        (insertDecoder (dcfCache0 r (video_path_for_decode env r clip))
          (video_path_for_decode env r clip)
          { d0 with forward_threshold_ms := dcfThreshold r })
  | some _ =>
    dcfDecode env r (video_path_for_decode env r clip) source_time_ms
      (dcfCache0 r (video_path_for_decode env r clip))

/-- The tail of `decode_and_render_clip` for a decoded frame: convert
YUV to RGBA, apply non-default effects, cache outside playback mode. -/
def darcFinish (env : REnv) (r : Renderer) (file_path : String) (clip : VideoClip)
    (frame : Frame) (source_time_ms timestamp_ms : ℤ) : Option RenderedFrame × Renderer :=
  let data0 :=
    if frame.format = PixelFormat.YUV420P then
      env.yuv420p_to_rgba frame.data frame.width frame.height
    else frame.data
  let rendered0 : RenderedFrame := ⟨frame.width, frame.height, data0, timestamp_ms, false⟩
  let rendered :=
    match lookupEffect r.clip_effects clip.id with
    | some params =>
      if ¬params.is_default then
        { rendered0 with
          data := env.apply_effects rendered0.data rendered0.width rendered0.height params }
      else rendered0
    | Option.none => rendered0
  if r.playback_mode = false then
    (some rendered,
     { r with frame_cache := r.frame_cache.put file_path source_time_ms rendered })
  else (some rendered, r)

/-- `decode_and_render_clip` (transition pre-blend decode): cache hit
returns the cached frame; `Frame`/`EndOfStream` results are rendered;
everything else (including decode errors) yields no frame. -/
def decode_and_render_clip (env : REnv) (r : Renderer) (clip : VideoClip)
    (source_time_ms timestamp_ms : ℤ) : Option RenderedFrame × Renderer :=
  match r.frame_cache.get (video_path_for_decode env r clip) source_time_ms with
  | (some frame, fc) => (some frame, { r with frame_cache := fc })
  | (Option.none, fc) =>
    match decode_clip_frame env { r with frame_cache := fc } clip source_time_ms with
    | (.ok (DecodeResult.Frame frame), r2) =>
      darcFinish env r2 (video_path_for_decode env r clip) clip frame source_time_ms
        timestamp_ms
    | (.ok (DecodeResult.EndOfStream frame), r2) =>
      darcFinish env r2 (video_path_for_decode env r clip) clip frame source_time_ms
        timestamp_ms
    | (_, r2) => (Option.none, r2)

/-- The `DecodeResult::Frame` branch of `render_frame`: stamp the frame,
apply non-default effects to RGBA previews, cache outside playback mode,
remember it as last rendered and record the elapsed time. -/
def render_decoded_frame (env : REnv) (r2 : Renderer) (file_path : String)
    (clip : VideoClip) (frame : Frame) (source_time_ms timestamp_ms : ℤ) :
    Except String RenderedFrame × Renderer :=
  let is_yuv := decide (frame.format = PixelFormat.YUV420P)
  let rendered0 : RenderedFrame := ⟨frame.width, frame.height, frame.data, timestamp_ms, is_yuv⟩
  let rendered :=
    if is_yuv = false then
      match lookupEffect r2.clip_effects clip.id with
      | some params =>
        if ¬params.is_default then
          { rendered0 with
            data := env.apply_effects rendered0.data rendered0.width rendered0.height params }
        else rendered0
      | Option.none => rendered0
    else rendered0
  let r3 :=
    if r2.playback_mode = false then
      { r2 with frame_cache := r2.frame_cache.put file_path source_time_ms rendered }
    else r2
  (.ok rendered,
   { r3 with
     last_rendered_frame := some rendered
     last_render_elapsed_ms := env.elapsed_ms })

/-- The decode-result dispatch of the single-clip path (lines 473–555):
every arm, the error arm included, returns `Ok`. -/
def render_decode_step (env : REnv) (r : Renderer) (file_path : String)
    (clip : VideoClip) (source_time_ms timestamp_ms : ℤ) :
    Except String RenderedFrame × Renderer :=
  match decode_clip_frame env r clip source_time_ms with
  | (.ok (DecodeResult.Frame frame), r2) =>
    render_decoded_frame env r2 file_path clip frame source_time_ms timestamp_ms
  | (.ok DecodeResult.FrameSkipped, r2) => (.ok (fallback_frame r2 timestamp_ms), r2)
  | (.ok (DecodeResult.EndOfStream frame), r2) =>
    let rendered : RenderedFrame :=
      ⟨frame.width, frame.height, frame.data, timestamp_ms,
        decide (frame.format = PixelFormat.YUV420P)⟩
    (.ok rendered, { r2 with last_rendered_frame := some rendered })
  | (.ok DecodeResult.EndOfStreamEmpty, r2) => (.ok (fallback_frame r2 timestamp_ms), r2)
  | (.error _, r2) => (.ok (fallback_frame r2 timestamp_ms), r2)

/-- The cache consultation of the single-clip path: a hit is restamped
and returned; a miss decodes. -/
def render_cache_step (env : REnv) (r : Renderer) (clip : VideoClip)
    (source_time_ms timestamp_ms : ℤ) : Except String RenderedFrame × Renderer :=
  match r.frame_cache.get (video_path_for_decode env r clip) source_time_ms with
  | (some frame, fc) =>
    (.ok { frame with timestamp_ms := timestamp_ms }, { r with frame_cache := fc })
  | (Option.none, fc) =>
    render_decode_step env { r with frame_cache := fc }
      (video_path_for_decode env r clip) clip source_time_ms timestamp_ms

/-- The single-clip path of `render_frame` (also the landing point when
the transition path yields no blended frame): no clip means a black
frame. -/
def render_single (env : REnv) (r : Renderer) :
    List (VideoClip × ℤ) → ℤ → Except String RenderedFrame × Renderer
  | [], timestamp_ms => (.ok (black_for_mode r timestamp_ms), r)
  | (clip, source_time_ms) :: _, timestamp_ms =>
    render_cache_step env r clip source_time_ms timestamp_ms

/-- The blend step of the transition path: with both frames decoded,
blend, convert for export, remember; otherwise fall through to the
single-clip path with the state both decodes produced. -/
def render_transition_blend (env : REnv) (r2 : Renderer) (info : TransitionInfo)
    (out_frame in_frame : Option RenderedFrame) (clips_to_render : List (VideoClip × ℤ))
    (timestamp_ms : ℤ) : Except String RenderedFrame × Renderer :=
  match out_frame, in_frame with
  | some out_f, some in_f =>
    let blended := apply_transition out_f.data in_f.data out_f.width out_f.height
      info.progress info.transition_type
    let out_f2 :=
      match r2.export_resolution with
      | some _ =>
        { out_f with
          data := env.rgba_to_yuv420p blended out_f.width out_f.height
          is_yuv := true }
      | Option.none => { out_f with data := blended }
    (.ok out_f2,
     { r2 with
       last_rendered_frame := some out_f2
       last_render_elapsed_ms := env.elapsed_ms })
  | _, _ => render_single env r2 clips_to_render timestamp_ms

/-- The incoming-clip decode of the transition path. -/
def render_transition_in (env : REnv) (r1 : Renderer) (info : TransitionInfo)
    (out_frame : Option RenderedFrame) (in_src : ℤ)
    (clips_to_render : List (VideoClip × ℤ)) (timestamp_ms : ℤ) :
    Except String RenderedFrame × Renderer :=
  match decode_and_render_clip env r1 info.incoming in_src timestamp_ms with
  | (in_frame, r2) =>
    render_transition_blend env r2 info out_frame in_frame clips_to_render timestamp_ms

/-- The outgoing-clip decode of the transition path. -/
def render_transition_decode (env : REnv) (r : Renderer) (info : TransitionInfo)
    (out_src in_src : ℤ) (clips_to_render : List (VideoClip × ℤ)) (timestamp_ms : ℤ) :
    Except String RenderedFrame × Renderer :=
  match decode_and_render_clip env r info.outgoing out_src timestamp_ms with
  | (out_frame, r1) =>
    render_transition_in env r1 info out_frame in_src clips_to_render timestamp_ms

/-- The transition path proper: both clips must map into their sources,
else fall through to the single-clip path. -/
def render_transition (env : REnv) (r : Renderer) (info : TransitionInfo)
    (clips_to_render : List (VideoClip × ℤ)) (timestamp_ms : ℤ) :
    Except String RenderedFrame × Renderer :=
  match info.outgoing.timeline_to_source_time timestamp_ms,
        info.incoming.timeline_to_source_time timestamp_ms with
  | some out_src, some in_src =>
    render_transition_decode env r info out_src in_src clips_to_render timestamp_ms
  | _, _ => render_single env r clips_to_render timestamp_ms

/-- The transition entry (lines 381–398): the adaptive skip reuses the
last frame when the previous render ran over 28 ms in preview
playback. -/
def render_transition_entry (env : REnv) (r : Renderer) (info : TransitionInfo)
    (clips_to_render : List (VideoClip × ℤ)) (timestamp_ms : ℤ) :
    Except String RenderedFrame × Renderer :=
  if r.playback_mode = true ∧ r.export_resolution = Option.none ∧
      28 < r.last_render_elapsed_ms then
    match r.last_rendered_frame with
    | some frame =>
      (.ok { frame with timestamp_ms := timestamp_ms },
       { r with last_render_elapsed_ms := 0 })
    | Option.none => render_transition env r info clips_to_render timestamp_ms
  else render_transition env r info clips_to_render timestamp_ms

/-- The scan loop over the video tracks (lines 349–365): transitions are
collected from every enabled track; the first enabled track with no
transition but an active, source-mappable clip contributes the single
clip to render. -/
def scanTracksGo (timestamp_ms : ℤ) :
    List VideoTrack → List (VideoClip × ℤ) → List TransitionInfo →
      List (VideoClip × ℤ) × List TransitionInfo
  | [], clips, transitions => (clips, transitions)
  | track :: rest, clips, transitions =>
    if track.enabled = false then scanTracksGo timestamp_ms rest clips transitions
    else
      match track.get_transition_at_time timestamp_ms with
      | some info => scanTracksGo timestamp_ms rest clips (transitions ++ [info])
      | Option.none =>
        if clips.isEmpty = true then
          match track.get_clip_at_time timestamp_ms with
          | some clip =>
            match clip.timeline_to_source_time timestamp_ms with
            | some src => scanTracksGo timestamp_ms rest (clips ++ [(clip, src)]) transitions
            | Option.none => scanTracksGo timestamp_ms rest clips transitions
          | Option.none => scanTracksGo timestamp_ms rest clips transitions
        else scanTracksGo timestamp_ms rest clips transitions

/-- After the scan: nothing to show is a black frame; otherwise the
transition path runs first, the single-clip path last. -/
def render_scanned (env : REnv) (r : Renderer) (clips_to_render : List (VideoClip × ℤ))
    (transitions : List TransitionInfo) (timestamp_ms : ℤ) :
    Except String RenderedFrame × Renderer :=
  if clips_to_render.isEmpty = true ∧ transitions.isEmpty = true then
    (.ok (black_for_mode r timestamp_ms), r)
  else
    match transitions with
    | info :: _ => render_transition_entry env r info clips_to_render timestamp_ms
    | [] => render_single env r clips_to_render timestamp_ms

/-- `Renderer::render_frame`: a failed `try_lock` skips the frame,
returning the fallback; otherwise the timeline is scanned and rendered. -/
def Renderer.render_frame (env : REnv) (r : Renderer) (timestamp_ms : ℤ) :
    Except String RenderedFrame × Renderer :=
  if env.tryLockOk = false then (.ok (fallback_frame r timestamp_ms), r)
  else
    match scanTracksGo timestamp_ms r.timeline.video_tracks [] [] with
    | (clips_to_render, transitions) =>
      render_scanned env r clips_to_render transitions timestamp_ms

theorem render_decode_step_ok (env : REnv) (r : Renderer) (fp : String)
    (clip : VideoClip) (src t : ℤ) :
    ∃ f r2, render_decode_step env r fp clip src t = (.ok f, r2) := by
  unfold render_decode_step
  cases hdec : decode_clip_frame env r clip src with
  | mk res r2 =>
    cases res with
    | error e => exact ⟨_, _, rfl⟩
    | ok dres => cases dres <;> exact ⟨_, _, rfl⟩

theorem render_cache_step_ok (env : REnv) (r : Renderer) (clip : VideoClip) (src t : ℤ) :
    ∃ f r2, render_cache_step env r clip src t = (.ok f, r2) := by
  unfold render_cache_step
  cases hget : r.frame_cache.get (video_path_for_decode env r clip) src with
  | mk o fc =>
    cases o with
    | some frame => exact ⟨_, _, rfl⟩
    | none =>
      exact render_decode_step_ok env { r with frame_cache := fc }
        (video_path_for_decode env r clip) clip src t

theorem render_single_ok (env : REnv) (r : Renderer) (clips : List (VideoClip × ℤ))
    (t : ℤ) : ∃ f r2, render_single env r clips t = (.ok f, r2) := by
  cases clips with
  | nil => exact ⟨_, _, rfl⟩
  | cons hd rest =>
    obtain ⟨clip, src⟩ := hd
    exact render_cache_step_ok env r clip src t

theorem render_transition_blend_ok (env : REnv) (r2 : Renderer) (info : TransitionInfo)
    (out_frame in_frame : Option RenderedFrame) (clips : List (VideoClip × ℤ)) (t : ℤ) :
    ∃ f r3, render_transition_blend env r2 info out_frame in_frame clips t = (.ok f, r3) := by
  cases out_frame with
  | some out_f =>
    cases in_frame with
    | some in_f => exact ⟨_, _, rfl⟩
    | none => exact render_single_ok env r2 clips t
  | none =>
    cases in_frame with
    | some in_f => exact render_single_ok env r2 clips t
    | none => exact render_single_ok env r2 clips t

theorem render_transition_in_ok (env : REnv) (r1 : Renderer) (info : TransitionInfo)
    (out_frame : Option RenderedFrame) (in_src : ℤ) (clips : List (VideoClip × ℤ))
    (t : ℤ) : ∃ f r3, render_transition_in env r1 info out_frame in_src clips t = (.ok f, r3) := by
  unfold render_transition_in
  cases hdec : decode_and_render_clip env r1 info.incoming in_src t with
  | mk in_frame r2 =>
    exact render_transition_blend_ok env r2 info out_frame in_frame clips t

theorem render_transition_decode_ok (env : REnv) (r : Renderer) (info : TransitionInfo)
    (out_src in_src : ℤ) (clips : List (VideoClip × ℤ)) (t : ℤ) :
    ∃ f r3, render_transition_decode env r info out_src in_src clips t = (.ok f, r3) := by
  unfold render_transition_decode
  cases hdec : decode_and_render_clip env r info.outgoing out_src t with
  | mk out_frame r1 =>
    exact render_transition_in_ok env r1 info out_frame in_src clips t

theorem render_transition_ok (env : REnv) (r : Renderer) (info : TransitionInfo)
    (clips : List (VideoClip × ℤ)) (t : ℤ) :
    ∃ f r3, render_transition env r info clips t = (.ok f, r3) := by
  unfold render_transition
  cases ho : info.outgoing.timeline_to_source_time t with
  | some out_src =>
    cases hi : info.incoming.timeline_to_source_time t with
    | some in_src => exact render_transition_decode_ok env r info out_src in_src clips t
    | none => exact render_single_ok env r clips t
  | none =>
    cases hi : info.incoming.timeline_to_source_time t with
    | some in_src => exact render_single_ok env r clips t
    | none => exact render_single_ok env r clips t

theorem render_transition_entry_ok (env : REnv) (r : Renderer) (info : TransitionInfo)
    (clips : List (VideoClip × ℤ)) (t : ℤ) :
    ∃ f r3, render_transition_entry env r info clips t = (.ok f, r3) := by
  unfold render_transition_entry
  by_cases hskip : r.playback_mode = true ∧ r.export_resolution = Option.none ∧
      28 < r.last_render_elapsed_ms
  · rw [if_pos hskip]
    cases hlast : r.last_rendered_frame with
    | some frame => exact ⟨_, _, rfl⟩
    | none => exact render_transition_ok env r info clips t
  · rw [if_neg hskip]
    exact render_transition_ok env r info clips t

theorem render_scanned_ok (env : REnv) (r : Renderer) (clips : List (VideoClip × ℤ))
    (trs : List TransitionInfo) (t : ℤ) :
    ∃ f r2, render_scanned env r clips trs t = (.ok f, r2) := by
  unfold render_scanned
  by_cases hempty : clips.isEmpty = true ∧ trs.isEmpty = true
  · rw [if_pos hempty]
    exact ⟨_, _, rfl⟩
  · rw [if_neg hempty]
    cases trs with
    | nil => exact render_single_ok env r clips t
    | cons info rest => exact render_transition_entry_ok env r info clips t

/-- C6 (confirmed): `render_frame` returns `Ok` for every timestamp,
renderer state and environment; a failed timeline `try_lock` returns the
fallback with the state unchanged; the fallback is the last rendered
frame when one exists and otherwise the black frame matching the output
mode; and on the single-clip path a `FrameSkipped` or
`EndOfStreamEmpty` outcome, or any `decode_clip_frame` error (decoder
recreation failures included), returns `Ok` with that fallback. -/
theorem C6_render_frame_never_errors :
    (∀ (env : REnv) (r : Renderer) (t : ℤ),
      ∃ f r2, Renderer.render_frame env r t = (.ok f, r2)) ∧
    (∀ (env : REnv) (r : Renderer) (t : ℤ), env.tryLockOk = false →
      Renderer.render_frame env r t = (.ok (fallback_frame r t), r)) ∧
    (∀ (r : Renderer) (t : ℤ),
      (∀ f, r.last_rendered_frame = some f → fallback_frame r t = f) ∧
      (r.last_rendered_frame = Option.none → fallback_frame r t = black_for_mode r t)) ∧
    (∀ (env : REnv) (r : Renderer) (clip : VideoClip) (src t : ℤ)
      (rest : List (VideoClip × ℤ)) (fc : FrameCache)
      (res : Except String DecodeResult) (r2 : Renderer),
      r.frame_cache.get (video_path_for_decode env r clip) src = (Option.none, fc) →
      decode_clip_frame env { r with frame_cache := fc } clip src = (res, r2) →
      (res = .ok DecodeResult.FrameSkipped ∨ res = .ok DecodeResult.EndOfStreamEmpty ∨
        ∃ e, res = .error e) →
      render_single env r ((clip, src) :: rest) t = (.ok (fallback_frame r2 t), r2)) := by
  refine ⟨?_, ?_, ?_, ?_⟩
  · intro env r t
    unfold Renderer.render_frame
    by_cases hlock : env.tryLockOk = false
    · rw [if_pos hlock]
      exact ⟨_, _, rfl⟩
    · rw [if_neg hlock]
      cases hscan : scanTracksGo t r.timeline.video_tracks [] [] with
      | mk clips trs => exact render_scanned_ok env r clips trs t
  · intro env r t hlock
    unfold Renderer.render_frame
    rw [if_pos hlock]
  · intro r t
    constructor
    · intro f hf
      unfold fallback_frame
      rw [hf]
    · intro hf
      unfold fallback_frame
      rw [hf]
  · intro env r clip src t rest fc res r2 hget hdec hres
    have h1 : render_single env r ((clip, src) :: rest) t
        = render_cache_step env r clip src t := rfl
    rw [h1]
    unfold render_cache_step
    rw [hget]
    show render_decode_step env { r with frame_cache := fc }
      (video_path_for_decode env r clip) clip src t = _
    unfold render_decode_step
    rcases hres with hres | hres | ⟨e, hres⟩ <;> subst hres <;> rw [hdec]

/-- A container environment that always fails. -/
def denv0 : DecodeEnv := ⟨fun _ _ => false, fun _ => ScanResult.eofNone, fun _ _ => .error "convert"⟩

/-- A renderer environment whose decoder open always fails. -/
def rEnv0 : REnv :=
  ⟨true, fun _ => false, fun _ => .error "open failed", fun _ _ _ => .error "open failed",
   fun _ => denv0, fun d _ _ => d, fun d _ _ => d, fun d _ _ _ => d, 0⟩

/-- An empty 960×540 preview timeline. -/
def timeline0 : Timeline := ⟨960, 540, 30, []⟩

/-- A fresh preview renderer over `timeline0`. -/
def renderer0 : Renderer :=
  ⟨timeline0, [], FrameCache.new 60 (200 * 1024 * 1024), Option.none, false, Option.none,
   [], 0⟩

/-- A test clip placed on `[0, 1000)`. -/
def vclip0 : VideoClip :=
  ⟨1, "a.mp4", Option.none, 0, 1000, 0, 1000, 1, 1, TransitionType.none⟩

/-- `renderer0`'s cache after the witness miss. -/
def fcMiss0 : FrameCache := ⟨[], 60, 200 * 1024 * 1024, 0, 0, 1⟩

/-- `renderer0` after the witness miss. -/
def rendererMiss0 : Renderer := { renderer0 with frame_cache := fcMiss0 }

/-- C6 witness: with a decoder that fails to open, the single-clip path
at 0 ms returns `Ok` with the fallback frame (here the preview black
frame). -/
theorem C6_witness :
    render_single rEnv0 renderer0 [(vclip0, 0)] 0
      = (.ok (fallback_frame rendererMiss0 0), rendererMiss0) :=
  C6_render_frame_never_errors.2.2.2 rEnv0 renderer0 vclip0 0 0 [] fcMiss0
    (.error "open failed") rendererMiss0 rfl rfl
    (Or.inr (Or.inr ⟨"open failed", rfl⟩))

end VortexCut

